import Mathlib

/-!
Shallow embedding of the `litebook` limit order book
(`litebook/order.py` and `litebook/book.py`).

Modelling conventions:
* Python `decimal.Decimal` prices and quantities are embedded as `ℚ`
  (Decimal arithmetic on the operations used here — comparison, `min`,
  subtraction, exact-multiple tests — is exact, so `ℚ` is faithful).
* `uuid.UUID` order identifiers are embedded as `Nat`.
* `datetime` instants are embedded as `Nat` (nanoseconds since epoch).
* `sortedcontainers.SortedDict` book sides are embedded as association
  lists `List (ℚ × List Order)` kept sorted by key on insertion: the
  bid side descending (the Python bids dict sorts by `-x`), the ask
  side ascending.  `peekitem(0)` is the head of the list.
* The Python `dict` `open_orders` is embedded as an association list
  `List (Nat × Order)`.
* In-place mutation of `Order` objects is translated to explicit state
  passing: an operation that mutates an order returns the new order
  value.
-/

/-- Embeds `OrderType` from `litebook/order.py`. -/
inductive OrderType where
  | BUY
  | SELL
deriving DecidableEq, Repr

/-- Embeds `OrderStatus` from `litebook/order.py`. -/
inductive OrderStatus where
  | OPEN
  | FILLED
  | CANCELED
deriving DecidableEq, Repr

/-- Embeds the timestamp default of the `Fill` NamedTuple: in the source,
`timestamp: datetime.datetime = datetime.datetime.now(datetime.UTC)` is
evaluated exactly once, when the class body executes at module import
time; every `Fill` built without an explicit `timestamp` argument shares
this single instant.  We fix the module-import instant at `0`. -/
def fillClassDefaultTimestamp : Nat := 0

/-- Embeds the `Fill` NamedTuple from `litebook/order.py`. -/
structure Fill where
  quantity : ℚ
  price : ℚ
  buy_id : Nat
  sell_id : Nat
  timestamp : Nat
deriving DecidableEq, Repr

/-- Embeds the construction `Fill(quantity=… , price=… , buy_id=… ,
sell_id=…)` as it appears in `Order.fill`: the call omits `timestamp`,
so the shared class-definition-time default is used.  The parameter
`now` is the instant at which the construction happens; it does not
flow into the record, exactly as in the source. -/
def makeFill (quantity price : ℚ) (buy_id sell_id : Nat) (_now : Nat) : Fill :=
  { quantity := quantity
    price := price
    buy_id := buy_id
    sell_id := sell_id
    timestamp := fillClassDefaultTimestamp }

/-- Embeds the `Order` class from `litebook/order.py`.  The `fills`
list mirrors the per-order fill log. -/
structure Order where
  side : OrderType
  price : ℚ
  quantity : ℚ
  id : Nat
  timestamp : Nat
  status : OrderStatus
  fills : List Fill
deriving DecidableEq, Repr

/-- Embeds `Order.__init__`: a freshly constructed order is `OPEN` with
an empty fill log (`id` and `timestamp` are supplied by the environment:
`uuid.uuid4()` and `datetime.datetime.now`). -/
def Order.make (side : OrderType) (price quantity : ℚ) (id timestamp : Nat) : Order :=
  { side := side
    price := price
    quantity := quantity
    id := id
    timestamp := timestamp
    status := OrderStatus.OPEN
    fills := [] }

/-- Embeds the `Order.is_open` property. -/
def Order.is_open (o : Order) : Bool :=
  o.status = OrderStatus.OPEN

/-- Embeds `Order.cancel`. -/
def Order.cancelOp (o : Order) : Order :=
  { o with status := OrderStatus.CANCELED }

/-- Embeds `Order.matches`. -/
def Order.matches (o comparison : Order) : Bool :=
  if o.side = comparison.side then
    false
  else
    (o.side = OrderType.BUY && o.price ≥ comparison.price) ||
    (o.side = OrderType.SELL && o.price ≤ comparison.price)

/-- Embeds `Order.fill`.  The Python method mutates `self` and
`incoming_order` in place and returns `Fill | None`; here it returns
the updated `self`, the updated `incoming_order`, and the optional
fill. -/
def Order.fill (o incoming_order : Order) : Order × Order × Option Fill :=
  if ¬ o.matches incoming_order then
    (o, incoming_order, none)
  else
    let fill_quantity := min o.quantity incoming_order.quantity
    let selfQty := o.quantity - fill_quantity
    let incomingQty := incoming_order.quantity - fill_quantity
    let selfStatus := if selfQty = 0 then OrderStatus.FILLED else o.status
    let incomingStatus :=
      if incomingQty = 0 then OrderStatus.FILLED else incoming_order.status
    let fill_price :=
      if o.side = OrderType.SELL then o.price else incoming_order.price
    let f : Fill :=
      { quantity := fill_quantity
        price := fill_price
        buy_id := if o.side = OrderType.BUY then o.id else incoming_order.id
        sell_id := if o.side = OrderType.SELL then o.id else incoming_order.id
        timestamp := fillClassDefaultTimestamp }
    ({ o with quantity := selfQty, status := selfStatus, fills := o.fills ++ [f] },
     { incoming_order with
        quantity := incomingQty
        status := incomingStatus
        fills := incoming_order.fills ++ [f] },
     some f)

/-!  The order book (`litebook/book.py`). -/

/-- Embeds the `OrderBook` attributes.  `bids` is kept sorted with keys
strictly descending, `asks` with keys strictly ascending (the
`SortedDict` comparators). -/
structure OrderBook where
  bids : List (ℚ × List Order)
  asks : List (ℚ × List Order)
  open_orders : List (Nat × Order)
  tick_size : Option ℚ
  market_depth : Option Nat
deriving DecidableEq, Repr

/-- Embeds `OrderBook.__init__`. -/
def OrderBook.init (tick_size : Option ℚ) (market_depth : Option Nat) : OrderBook :=
  { bids := [], asks := [], open_orders := [], tick_size := tick_size,
    market_depth := market_depth }

/-- Embeds `OrderBook._is_valid_price`: `price % tick_size == 0` on
positive Decimals holds exactly when `price / tick_size` is an
integer. -/
def OrderBook.isValidPrice (b : OrderBook) (price : ℚ) : Bool :=
  match b.tick_size with
  | none => true
  | some t => (price / t).den = 1

/-- Looks a key up in the `open_orders` association list (Python
`order_id in self.open_orders` / `self.open_orders[order_id]`). -/
def lookupKey (k : Nat) (l : List (Nat × Order)) : Option Order :=
  (l.find? (fun e => e.1 = k)).map (fun e => e.2)

/-- Embeds `dict.pop(k, None)` / `del d[k]` on `open_orders`: the
binding for `k` (unique, as in a Python dict) is dropped. -/
def popKey (k : Nat) (l : List (Nat × Order)) : List (Nat × Order) :=
  l.filter (fun e => ¬ e.1 = k)

/-- Embeds `d[k] = v` on `open_orders`. -/
def setKey (k : Nat) (v : Order) (l : List (Nat × Order)) : List (Nat × Order) :=
  popKey k l ++ [(k, v)]

/-- Inserts an order into a book side at its price level, creating the
level at its sorted position when absent (`SortedDict` assignment plus
`order_book[price].append(order)`).  `before a c` states that key `a`
sorts strictly before key `c`: `(· > ·)` on the bid side, `(· < ·)` on
the ask side. -/
def insertLevel (before : ℚ → ℚ → Bool) (p : ℚ) (o : Order) :
    List (ℚ × List Order) → List (ℚ × List Order)
  | [] => [(p, [o])]
  | (q, orders) :: rest =>
    if p = q then
      (q, orders ++ [o]) :: rest
    else if before p q then
      (p, [o]) :: (q, orders) :: rest
    else
      (q, orders) :: insertLevel before p o rest

/-- Result of the inner while loop of `OrderBook._match` over the FIFO
queue of one price level: the updated incoming order, the remaining
queue, the fills appended, and the fully filled resting orders that
were popped (in pop order). -/
structure LevelResult where
  incoming : Order
  queue : List Order
  fills : List Fill
  removed : List Order
deriving Repr

/-- Embeds the inner while loop of `OrderBook._match` (`while i <
len(orders_at_level) and incoming_order.is_open`): each resting order
in FIFO order is filled against the incoming order; a fully filled
resting order is popped from the queue (and later from the id index),
a partially filled one stays in place. -/
def matchAtLevel (incoming : Order) : List Order → LevelResult
  | [] => ⟨incoming, [], [], []⟩
  | m :: rest =>
    if incoming.is_open then
      let r0 := m.fill incoming
      let fl := r0.2.2.toList
      if r0.1.status = OrderStatus.FILLED then
        let r := matchAtLevel r0.2.1 rest
        ⟨r.incoming, r.queue, fl ++ r.fills, r0.1 :: r.removed⟩
      else
        let r := matchAtLevel r0.2.1 rest
        ⟨r.incoming, r0.1 :: r.queue, fl ++ r.fills, r.removed⟩
    else
      ⟨incoming, m :: rest, [], []⟩

/-- Embeds the price-level break test of `OrderBook._match`: the
incoming order stops matching when the best opposite level no longer
crosses it. -/
def priceBreak (incoming : Order) (best_price : ℚ) : Bool :=
  (incoming.side = OrderType.BUY && incoming.price < best_price) ||
  (incoming.side = OrderType.SELL && incoming.price > best_price)

/-- Result of the outer while loop of `OrderBook._match`. -/
structure LoopResult where
  incoming : Order
  book : List (ℚ × List Order)
  fills : List Fill
  removed : List Order
deriving Repr

/-- Size measure of a book side: total resting orders plus number of
levels.  Used as fuel for the outer matching loop. -/
def sideSize (book : List (ℚ × List Order)) : Nat :=
  book.foldr (fun l acc => l.2.length + 1 + acc) 0

/-- Embeds the outer while loop of `OrderBook._match` (`while
incoming_order.is_open and opposite_book`): take the best opposite
level, stop if it does not cross, otherwise sweep its FIFO queue and
drop the level when its queue empties.  The loop is translated with
explicit fuel; `sideSize opposite + 1` steps always suffice (each
iteration of the source loop removes at least one resting order or one
level, or closes the incoming order). -/
def matchLoop : Nat → Order → List (ℚ × List Order) → LoopResult
  | 0, incoming, book => ⟨incoming, book, [], []⟩
  | _ + 1, incoming, [] => ⟨incoming, [], [], []⟩
  | fuel + 1, incoming, (best_price, queue) :: rest =>
    if ¬ incoming.is_open then
      ⟨incoming, (best_price, queue) :: rest, [], []⟩
    else if priceBreak incoming best_price then
      ⟨incoming, (best_price, queue) :: rest, [], []⟩
    else
      let r := matchAtLevel incoming queue
      let book1 := if r.queue = [] then rest else (best_price, r.queue) :: rest
      let r2 := matchLoop fuel r.incoming book1
      ⟨r2.incoming, r2.book, r.fills ++ r2.fills, r.removed ++ r2.removed⟩

/-- Embeds `OrderBook._match`: run the matching loop against the
opposite side and pop every fully filled resting order from the id
index (the source pops each id as it is filled; popping them after the
loop is the same map).  Returns the updated book, the updated incoming
order, and the fills. -/
def OrderBook.matchIncoming (b : OrderBook) (incoming : Order) :
    OrderBook × Order × List Fill :=
  let opposite := if incoming.side = OrderType.SELL then b.bids else b.asks
  let r := matchLoop (sideSize opposite + 1) incoming opposite
  let openOrders1 := r.removed.foldl (fun acc o => popKey o.id acc) b.open_orders
  if incoming.side = OrderType.SELL then
    ({ b with bids := r.book, open_orders := openOrders1 }, r.incoming, r.fills)
  else
    ({ b with asks := r.book, open_orders := openOrders1 }, r.incoming, r.fills)

/-- Embeds `OrderBook._enforce_market_depth` together with the orders
it releases.  The source returns early unless both `tick_size` and
`market_depth` are set and at least one side is non-empty; it then
computes both bounds from the current best bid and best ask, removes
every bid level strictly below `best_bid - tick_size * market_depth`
and every ask level strictly above `best_ask + tick_size *
market_depth` via `_remove_price_level`, which pops each order at a
removed level from the id index.  The second component collects the
released orders. -/
def OrderBook.enforceMarketDepth (b : OrderBook) : OrderBook × List Order :=
  match b.tick_size, b.market_depth with
  | some t, some n =>
    if b.bids = [] ∧ b.asks = [] then
      (b, [])
    else
      let bidDrop : ℚ × List Order → Bool :=
        match b.bids with
        | [] => fun _ => false
        | (best_bid, _) :: _ => fun l => l.1 < best_bid - t * (n : ℚ)
      let askDrop : ℚ × List Order → Bool :=
        match b.asks with
        | [] => fun _ => false
        | (best_ask, _) :: _ => fun l => best_ask + t * (n : ℚ) < l.1
      let removed :=
        (b.bids.filter bidDrop ++ b.asks.filter askDrop).foldr
          (fun l acc => l.2 ++ acc) []
      ({ b with
          bids := b.bids.filter (fun l => ¬ bidDrop l)
          asks := b.asks.filter (fun l => ¬ askDrop l)
          open_orders :=
            b.open_orders.filter (fun e => ¬ removed.any (fun o => o.id = e.1)) },
       removed)
  | _, _ => (b, [])

/-- Embeds `OrderBook.clear`. -/
def OrderBook.clear (b : OrderBook) : OrderBook :=
  { b with bids := [], asks := [], open_orders := [] }

/-- Embeds the resting step of `OrderBook.add`: the still-open order is
appended to the FIFO queue of its price level on its own side (the
level is created if absent) and registered in the id index. -/
def OrderBook.restOrder (b : OrderBook) (order : Order) : OrderBook :=
  if order.side = OrderType.BUY then
    { b with
        bids := insertLevel (fun a c => c < a) order.price order b.bids
        open_orders := setKey order.id order b.open_orders }
  else
    { b with
        asks := insertLevel (fun a c => a < c) order.price order b.asks
        open_orders := setKey order.id order b.open_orders }

/-- Embeds `OrderBook.add`: reject a tick-misaligned price, match
against the opposite side, rest the order if it is still open, then
enforce the market depth.  Returns the final book, the final state of
the incoming order, and the fills. -/
def OrderBook.add (b : OrderBook) (order : Order) : OrderBook × Order × List Fill :=
  if ¬ b.isValidPrice order.price then
    (b, order, [])
  else
    let r := b.matchIncoming order
    let b2 := if r.2.1.is_open then r.1.restOrder r.2.1 else r.1
    ((b2.enforceMarketDepth).1, r.2.1, r.2.2)

/-- Removes the first order with the given id from a FIFO queue;
`none` when no order in the queue has that id (the source's scan
`for i, existing_order in enumerate(orders_at_level)` with `del
orders_at_level[i]` on the match). -/
def removeFromLevel (oid : Nat) : List Order → Option (List Order)
  | [] => none
  | o :: rest =>
    if o.id = oid then
      some rest
    else
      (removeFromLevel oid rest).map (fun r => o :: r)

/-- Embeds the queue-and-level part of `OrderBook.cancel`: locate the
level with the order's price; when found, delete the order from its
queue and drop the level if the queue became empty.  The boolean
records whether the order was actually found and `order.cancel()` was
called. -/
def cancelAtPrice (oid : Nat) (p : ℚ) :
    List (ℚ × List Order) → List (ℚ × List Order) × Bool
  | [] => ([], false)
  | (q, orders) :: rest =>
    if q = p then
      match removeFromLevel oid orders with
      | none => ((q, orders) :: rest, false)
      | some [] => (rest, true)
      | some orders1 => ((q, orders1) :: rest, true)
    else
      let r := cancelAtPrice oid p rest
      ((q, orders) :: r.1, r.2)

/-- Embeds `OrderBook.cancel`.  The Python method has no return
statement on any path, so every call returns `None`; the final
component models that returned value as an `Option Bool` that is
always `none`.  The middle component is the final state of the
looked-up order object (its `status` is mutated to `CANCELED` exactly
when the order was found in its price level), `none` when the id was
not in the index. -/
def OrderBook.cancelOrder (b : OrderBook) (order_id : Nat) :
    OrderBook × Option Order × Option Bool :=
  match lookupKey order_id b.open_orders with
  | none => (b, none, none)
  | some o =>
    let side := if o.side = OrderType.BUY then b.bids else b.asks
    let r := cancelAtPrice o.id o.price side
    let o1 := if r.2 then o.cancelOp else o
    if o.side = OrderType.BUY then
      ({ b with bids := r.1, open_orders := popKey order_id b.open_orders },
       some o1, none)
    else
      ({ b with asks := r.1, open_orders := popKey order_id b.open_orders },
       some o1, none)

/-- Embeds the `OrderBook.best_bid` property. -/
def OrderBook.best_bid (b : OrderBook) : Option ℚ :=
  match b.bids with
  | [] => none
  | l :: _ => some l.1

/-- Embeds the `OrderBook.best_ask` property. -/
def OrderBook.best_ask (b : OrderBook) : Option ℚ :=
  match b.asks with
  | [] => none
  | l :: _ => some l.1

/-!  Well-formedness of book state, and reachability by the public
operations. -/

/-- All resting orders of a book side, best price level first, FIFO
order within each level. -/
def sideOrdersOf (side : List (ℚ × List Order)) : List Order :=
  side.foldr (fun l acc => l.2 ++ acc) []

/-- All resting orders of the book (bids then asks). -/
def OrderBook.allOrders (b : OrderBook) : List Order :=
  sideOrdersOf b.bids ++ sideOrdersOf b.asks

/-- The id of the resting (maker) side of a fill, given the incoming
(taker) order: the fill's buy id when the taker sells, its sell id
when the taker buys. -/
def makerId (incoming : Order) (f : Fill) : Nat :=
  if incoming.side = OrderType.SELL then f.buy_id else f.sell_id

/-- Well-formedness of one price level: a non-empty FIFO queue whose
orders all carry the level's price, the side's order type, status
`OPEN` and positive quantity. -/
def levelWF (sideTy : OrderType) (l : ℚ × List Order) : Prop :=
  l.2 ≠ [] ∧ ∀ o ∈ l.2,
    o.price = l.1 ∧ o.side = sideTy ∧ o.status = OrderStatus.OPEN ∧ 0 < o.quantity

/-- Well-formedness of a book: bid keys strictly descending, ask keys
strictly ascending, and every level well-formed for its side. -/
def OrderBook.WF (b : OrderBook) : Prop :=
  List.Pairwise (fun x y : ℚ × List Order => y.1 < x.1) b.bids ∧
  List.Pairwise (fun x y : ℚ × List Order => x.1 < y.1) b.asks ∧
  (∀ l ∈ b.bids, levelWF OrderType.BUY l) ∧
  (∀ l ∈ b.asks, levelWF OrderType.SELL l)

/-- The books reachable from a fresh `OrderBook` by the public
operations: `add` of a constructor-valid order (the `Order.__init__`
asserts require positive price and quantity), `cancel`, and
`clear`. -/
inductive Reachable : OrderBook → Prop where
  | init (tick_size : Option ℚ) (market_depth : Option Nat) :
      Reachable (OrderBook.init tick_size market_depth)
  | add (b : OrderBook) (side : OrderType) (price quantity : ℚ) (id timestamp : Nat)
      (hp : 0 < price) (hq : 0 < quantity) (hb : Reachable b) :
      Reachable ((b.add (Order.make side price quantity id timestamp)).1)
  | cancel (b : OrderBook) (oid : Nat) (hb : Reachable b) :
      Reachable ((b.cancelOrder oid).1)
  | clear (b : OrderBook) (hb : Reachable b) :
      Reachable b.clear

/-!  Concrete books and orders used to instantiate the theorems. -/

/-- A book with resting bids `BUY@101/10 qty 5` (id 1) and `BUY@10 qty
5` (id 2) and tick size `1/20` (the spec's `Buy@10.10`, `Buy@10.00`,
tick `0.05`). -/
def c1Book : OrderBook :=
  { bids :=
      [(101/10, [Order.make OrderType.BUY (101/10) 5 1 1]),
       (10, [Order.make OrderType.BUY 10 5 2 2])]
    asks := []
    open_orders :=
      [(1, Order.make OrderType.BUY (101/10) 5 1 1),
       (2, Order.make OrderType.BUY 10 5 2 2)]
    tick_size := some (1/20)
    market_depth := none }

/-- The spec scenario's incoming order `Sell@201/20 qty 10` (the
spec's `Sell @ 10.05 qty 10`). -/
def c1Sell : Order := Order.make OrderType.SELL (201/20) 10 3 3

/-- A resting buy order used to instantiate the amended fill price
rule. -/
def c1MakerBuy : Order := Order.make OrderType.BUY (101/10) 5 1 1

/-- An incoming sell order used to instantiate the amended fill price
rule. -/
def c1TakerSell : Order := Order.make OrderType.SELL (201/20) 10 3 3

/-- Orders used to instantiate the `Order.fill` specification. -/
def c4OrderA : Order := Order.make OrderType.BUY 10 5 1 1

/-- See `c4OrderA`. -/
def c4OrderB : Order := Order.make OrderType.SELL 10 3 2 2

/-- A book holding one resting open order with id 7. -/
def c5Book : OrderBook :=
  { bids := [(10, [Order.make OrderType.BUY 10 5 7 1])]
    asks := []
    open_orders := [(7, Order.make OrderType.BUY 10 5 7 1)]
    tick_size := some (1/20)
    market_depth := none }

/-- A tick-misaligned order: price `1003/100` is not a multiple of the
tick size `1/20`. -/
def c6Order : Order := Order.make OrderType.BUY (1003/100) 1 1 1

/-- The book `c6Order` is rejected from. -/
def c6Book : OrderBook := OrderBook.init (some (1/20)) none

/-- A book with tick size `1/20` and market depth 3 holding bid levels
at `10, 199/20, 198/20, 197/20, 196/20` (the spec's depth-pruning
scenario before pruning runs). -/
def c7Book : OrderBook :=
  { bids :=
      [(10, [Order.make OrderType.BUY 10 5 1 1]),
       (199/20, [Order.make OrderType.BUY (199/20) 5 2 2]),
       (198/20, [Order.make OrderType.BUY (198/20) 5 3 3]),
       (197/20, [Order.make OrderType.BUY (197/20) 5 4 4]),
       (196/20, [Order.make OrderType.BUY (196/20) 5 5 5])]
    asks := []
    open_orders :=
      [(1, Order.make OrderType.BUY 10 5 1 1),
       (2, Order.make OrderType.BUY (199/20) 5 2 2),
       (3, Order.make OrderType.BUY (198/20) 5 3 3),
       (4, Order.make OrderType.BUY (197/20) 5 4 4),
       (5, Order.make OrderType.BUY (196/20) 5 5 5)]
    tick_size := some (1/20)
    market_depth := some 3 }

/-- A book with market depth 0 and two bid levels, so that pruning
actually evicts one of them. -/
def c9Book : OrderBook :=
  { bids :=
      [(10, [Order.make OrderType.BUY 10 5 1 1]),
       (199/20, [Order.make OrderType.BUY (199/20) 5 2 2])]
    asks := []
    open_orders :=
      [(1, Order.make OrderType.BUY 10 5 1 1),
       (2, Order.make OrderType.BUY (199/20) 5 2 2)]
    tick_size := some (1/20)
    market_depth := some 0 }

/-- A book without a tick size but with a market depth, holding two
bid levels. -/
def c10Book : OrderBook :=
  { bids :=
      [(10, [Order.make OrderType.BUY 10 5 1 1]),
       (5, [Order.make OrderType.BUY 5 5 2 2])]
    asks := []
    open_orders :=
      [(1, Order.make OrderType.BUY 10 5 1 1),
       (2, Order.make OrderType.BUY 5 5 2 2)]
    tick_size := none
    market_depth := some 0 }

/-- A book with one bid level holding two resting orders, used to
instantiate the matching-priority theorem. -/
def c2Book : OrderBook :=
  { bids :=
      [(10, [Order.make OrderType.BUY 10 5 1 1, Order.make OrderType.BUY 10 3 2 2])]
    asks := []
    open_orders :=
      [(1, Order.make OrderType.BUY 10 5 1 1),
       (2, Order.make OrderType.BUY 10 3 2 2)]
    tick_size := some (1/20)
    market_depth := none }

/-- The incoming `Sell@10 qty 2` matched against `c2Book`. -/
def c2Sell : Order := Order.make OrderType.SELL 10 2 3 3

/-- The fill produced by `c1MakerBuy.fill c1TakerSell`. -/
def c1Fill : Fill :=
  { quantity := 5, price := 201/20, buy_id := 1, sell_id := 3, timestamp := 0 }

/-- The maker state after `c1MakerBuy.fill c1TakerSell`. -/
def c1MakerAfter : Order :=
  { side := OrderType.BUY, price := 101/10, quantity := 0, id := 1, timestamp := 1,
    status := OrderStatus.FILLED, fills := [c1Fill] }

/-- The taker state after `c1MakerBuy.fill c1TakerSell`. -/
def c1TakerAfter : Order :=
  { side := OrderType.SELL, price := 201/20, quantity := 5, id := 3, timestamp := 3,
    status := OrderStatus.OPEN, fills := [c1Fill] }

/-- The fill record built by `Order.fill` when the orders match. -/
def fillRecord (a b : Order) : Fill :=
  { quantity := min a.quantity b.quantity
    price := if a.side = OrderType.SELL then a.price else b.price
    buy_id := if a.side = OrderType.BUY then a.id else b.id
    sell_id := if a.side = OrderType.SELL then a.id else b.id
    timestamp := fillClassDefaultTimestamp }

/-- The book is not crossed: when both sides are non-empty the best
bid is strictly below the best ask. -/
def OrderBook.notCrossed (b : OrderBook) : Prop :=
  ∀ pb pa, b.best_bid = some pb → b.best_ask = some pa → pb < pa

/-!  Theorems. -/

/-- C8: the claim says every `Fill`'s timestamp is stamped at the
moment the fill is created.  In the source the default
`timestamp: datetime.datetime = datetime.datetime.now(datetime.UTC)`
is evaluated once at class definition, and `Order.fill` builds fills
without a timestamp argument, so fills created at distinct instants
(here 5 and 7) share the class-definition-time constant instead of
carrying their own creation instants — contradicting the `Fill`
docstring "The time of the trade execution". -/
theorem c8_fill_timestamp_not_creation_time :
    (makeFill 1 1 1 2 5).timestamp = (makeFill 1 1 1 2 7).timestamp ∧
    (makeFill 1 1 1 2 5).timestamp ≠ 5 ∧
    (makeFill 1 1 1 2 7).timestamp ≠ 7 := by
  decide

/-- C6: an order whose price is not a multiple of the tick size is
rejected silently: `add` returns the empty fill list and leaves the
book (both sides and the id index) and the order unchanged. -/
theorem c6_reject_misaligned (b : OrderBook) (o : Order)
    (h : b.isValidPrice o.price = false) :
    b.add o = (b, o, []) := by
  unfold OrderBook.add
  simp [h]

/-- Witness for `c6_reject_misaligned` at tick size `1/20` and price
`1003/100`. -/
theorem c6_reject_misaligned_witness :
    c6Book.isValidPrice c6Order.price = false ∧
    c6Book.add c6Order = (c6Book, c6Order, []) :=
  ⟨by norm_num [c6Book, c6Order, Order.make, OrderBook.init, OrderBook.isValidPrice,
      Rat.den],
   c6_reject_misaligned c6Book c6Order
     (by norm_num [c6Book, c6Order, Order.make, OrderBook.init, OrderBook.isValidPrice,
        Rat.den])⟩

/-- C10: with `tick_size = None` every price passes the tick check
and `_enforce_market_depth` returns without touching the book even
when `market_depth` is set. -/
theorem c10_no_tick_size (b : OrderBook) (p : ℚ) (h : b.tick_size = none) :
    b.isValidPrice p = true ∧ b.enforceMarketDepth = (b, []) := by
  constructor
  · unfold OrderBook.isValidPrice
    rw [h]
  · unfold OrderBook.enforceMarketDepth
    rw [h]

/-- Witness for `c10_no_tick_size`: a book with no tick size, a set
market depth, and two bid levels; a misaligned-looking price is
accepted and pruning removes nothing. -/
theorem c10_no_tick_size_witness :
    c10Book.tick_size = none ∧
    (c10Book.isValidPrice (1003/100) = true ∧
      c10Book.enforceMarketDepth = (c10Book, [])) :=
  ⟨by decide, c10_no_tick_size c10Book (1003/100) (by decide)⟩

/-- C4: for orders with positive quantities, `Order.fill` returns
`None` exactly when the orders do not match; otherwise it decrements
both quantities by `q = min` of the two, marks exactly the orders
whose quantity reaches 0 as `FILLED`, and returns a fill of strictly
positive quantity `q`. -/
theorem c4_fill_correct (a b : Order) (ha : 0 < a.quantity) (hb : 0 < b.quantity) :
    ((a.fill b).2.2 = none ↔ a.matches b = false) ∧
    ∀ f, (a.fill b).2.2 = some f →
      f.quantity = min a.quantity b.quantity ∧
      0 < f.quantity ∧
      (a.fill b).1.quantity = a.quantity - f.quantity ∧
      (a.fill b).2.1.quantity = b.quantity - f.quantity ∧
      ((a.fill b).1.quantity = 0 → (a.fill b).1.status = OrderStatus.FILLED) ∧
      ((a.fill b).1.quantity ≠ 0 → (a.fill b).1.status = a.status) ∧
      ((a.fill b).2.1.quantity = 0 → (a.fill b).2.1.status = OrderStatus.FILLED) ∧
      ((a.fill b).2.1.quantity ≠ 0 → (a.fill b).2.1.status = b.status) := by
  by_cases hm : a.matches b = true
  · unfold Order.fill
    simp only [hm, not_true_eq_false, if_false, ite_false]
    refine ⟨by simp [hm], ?_⟩
    intro f hf
    simp only [Option.some.injEq] at hf
    subst hf
    refine ⟨rfl, lt_min ha hb, rfl, rfl, ?_, ?_, ?_, ?_⟩ <;>
      · intro h0
        simp only [h0] at *
        split <;> simp_all
  · have hm' : a.matches b = false := by
      cases h : a.matches b
      · rfl
      · exact absurd h hm
    unfold Order.fill
    simp [hm']

/-- C1 counterexample: on the spec's own scenario — resting bids
`Buy@101/10 qty 5` and `Buy@10 qty 5`, incoming `Sell@201/20 qty 10` —
the single fill's price is the incoming sell's price `201/20`
(`10.05`), not the resting (maker) buy's price `101/10` (`10.10`) that
the maker-price rule requires. -/
theorem c1_counterexample :
    ((c1Book.add c1Sell).2.2.map Fill.price = [(201 : ℚ)/20]) ∧
    ¬ ((c1Book.add c1Sell).2.2.map Fill.price = [(101 : ℚ)/10]) := by
  norm_num +decide [c1Book, c1Sell, Order.make, OrderBook.add, OrderBook.isValidPrice,
    OrderBook.matchIncoming, matchLoop, matchAtLevel, Order.fill, Order.matches,
    Order.is_open, priceBreak, sideSize, OrderBook.restOrder, insertLevel,
    OrderBook.enforceMarketDepth, setKey, popKey, Rat.den]

/-- C1 amended: the fill price is the price of the sell-side order of
the pair, whichever side is resting: a resting sell maker trades at
its own (maker) price, while a resting buy maker trades at the
incoming sell taker's price. -/
theorem c1_amended_sell_side_price (a b a1 b1 : Order) (f : Fill)
    (h : a.fill b = (a1, b1, some f)) :
    (a.side = OrderType.SELL → b.side = OrderType.BUY ∧ f.price = a.price) ∧
    (a.side = OrderType.BUY → b.side = OrderType.SELL ∧ f.price = b.price) := by
  by_cases hm : a.matches b = true
  · have hside : ¬ a.side = b.side := by
      intro hs
      unfold Order.matches at hm
      simp [hs] at hm
    unfold Order.fill at h
    rw [hm] at h
    simp only [not_true_eq_false, if_false, Prod.mk.injEq, Option.some.injEq] at h
    obtain ⟨-, -, hf⟩ := h
    subst hf
    constructor
    · intro hs
      cases hb : b.side
      · simp [hs]
      · exact absurd (hs.trans hb.symm) hside
    · intro hs
      cases hb : b.side
      · exact absurd (hs.trans hb.symm) hside
      · simp [hs, hb]
  · unfold Order.fill at h
    simp [hm] at h

/-- Witness for `c1_amended_sell_side_price` on a resting buy maker
and an incoming sell taker. -/
theorem c1_amended_witness :
    (c1MakerBuy.side = OrderType.SELL →
      c1TakerSell.side = OrderType.BUY ∧ c1Fill.price = c1MakerBuy.price) ∧
    (c1MakerBuy.side = OrderType.BUY →
      c1TakerSell.side = OrderType.SELL ∧ c1Fill.price = c1TakerSell.price) :=
  c1_amended_sell_side_price c1MakerBuy c1TakerSell c1MakerAfter c1TakerAfter c1Fill
    (by norm_num +decide [c1MakerBuy, c1TakerSell, c1MakerAfter, c1TakerAfter, c1Fill,
      Order.make, Order.fill, Order.matches, fillClassDefaultTimestamp])

/-- Looking up a key just removed from the id index fails. -/
theorem lookupKey_popKey (k : Nat) (l : List (Nat × Order)) :
    lookupKey k (popKey k l) = none := by
  simp only [lookupKey, popKey, Option.map_eq_none']
  rw [List.find?_eq_none]
  intro x hx
  have hmem := List.of_mem_filter hx
  simp only [decide_not, Bool.not_eq_true', decide_eq_true_eq,
    decide_eq_false_iff_not] at hmem ⊢
  exact hmem

/-- `cancel` of an id absent from the open-order index is a complete
no-op returning `None`. -/
theorem cancelOrder_of_absent (b : OrderBook) (oid : Nat)
    (h : lookupKey oid b.open_orders = none) :
    b.cancelOrder oid = (b, none, none) := by
  unfold OrderBook.cancelOrder
  rw [h]

/-- C5 counterexample: the id 7 is present in the open-order index of
`c5Book`, yet `cancel` does not return a boolean: the Python method has
no return statement, so the successful cancel returns `None` (modelled
as `none`), not `true`. -/
theorem c5_counterexample :
    lookupKey 7 c5Book.open_orders ≠ none ∧
    (c5Book.cancelOrder 7).2.2 ≠ some true ∧
    (c5Book.cancelOrder 7).2.2 ≠ some false := by
  refine ⟨?_, ?_, ?_⟩ <;>
    norm_num +decide [c5Book, Order.make, OrderBook.cancelOrder, lookupKey,
      cancelAtPrice, removeFromLevel, Order.cancelOp, popKey]

/-- `removeFromLevel` deletes exactly the first order bearing the id:
on a queue split around the first occurrence it returns the two parts
glued back together. -/
theorem removeFromLevel_decomp (oid : Nat) (q1 q2 : List Order) (m : Order)
    (hm : m.id = oid) (hq1 : ∀ x ∈ q1, ¬ x.id = oid) :
    removeFromLevel oid (q1 ++ m :: q2) = some (q1 ++ q2) := by
  induction q1 with
  | nil =>
    rw [List.nil_append, List.nil_append, removeFromLevel, if_pos hm]
  | cons x xs ih =>
    rw [List.cons_append, removeFromLevel,
      if_neg (hq1 x (List.mem_cons_self _ _)),
      ih (fun y hy => hq1 y (List.mem_cons_of_mem _ hy))]
    rfl

/-- `cancelAtPrice` touches only the first level with the given key:
the levels before and after it are unchanged, the queue at the key
loses exactly the removed order, and the level is dropped when its
queue becomes empty. -/
theorem cancelAtPrice_decomp (oid : Nat) (p : ℚ) (pre post : List (ℚ × List Order))
    (queue r : List Order)
    (hpre : ∀ l ∈ pre, ¬ l.1 = p)
    (hrem : removeFromLevel oid queue = some r) :
    (cancelAtPrice oid p (pre ++ (p, queue) :: post)).1 =
      (if r = [] then pre ++ post else pre ++ (p, r) :: post) ∧
    (cancelAtPrice oid p (pre ++ (p, queue) :: post)).2 = true := by
  induction pre with
  | nil =>
    rw [List.nil_append, cancelAtPrice, if_pos rfl, hrem]
    cases r with
    | nil =>
      refine ⟨?_, rfl⟩
      rw [if_pos rfl]
      rfl
    | cons x xs =>
      refine ⟨?_, rfl⟩
      rw [if_neg (List.cons_ne_nil x xs)]
      rfl
  | cons hd rest ih =>
    obtain ⟨qh, qsh⟩ := hd
    have hne : ¬ qh = p := hpre (qh, qsh) (List.mem_cons_self _ _)
    have ihr := ih (fun l hl => hpre l (List.mem_cons_of_mem _ hl))
    rw [List.cons_append, cancelAtPrice, if_neg hne]
    constructor
    · show (qh, qsh) :: (cancelAtPrice oid p (rest ++ (p, queue) :: post)).1 =
        if r = [] then ((qh, qsh) :: rest) ++ post
        else ((qh, qsh) :: rest) ++ (p, r) :: post
      rw [ihr.1]
      by_cases hr0 : r = []
      · rw [if_pos hr0, if_pos hr0]
        rfl
      · rw [if_neg hr0, if_neg hr0]
        rfl
    · show (cancelAtPrice oid p (rest ++ (p, queue) :: post)).2 = true
      exact ihr.2

/-- C5 amended: `cancel` always returns `None`; an absent id is a
complete no-op; a present id is removed from the index (a second
cancel of the same id is then a no-op), when the order is found
resting in its price-level queue its status is mutated from `OPEN`
to `CANCELED`, and the order is removed from its price-level queue on
its own side — the level is deleted if the queue becomes empty, every
other level is untouched, and the opposite side is unchanged. -/
theorem c5_amended_cancel (b : OrderBook) (oid : Nat) :
    (b.cancelOrder oid).2.2 = none ∧
    (lookupKey oid b.open_orders = none → b.cancelOrder oid = (b, none, none)) ∧
    (∀ o, lookupKey oid b.open_orders = some o →
      lookupKey oid (b.cancelOrder oid).1.open_orders = none ∧
      ((cancelAtPrice o.id o.price
          (if o.side = OrderType.BUY then b.bids else b.asks)).2 = true →
        (b.cancelOrder oid).2.1 = some o.cancelOp ∧
        o.cancelOp.status = OrderStatus.CANCELED) ∧
      (o.side = OrderType.BUY →
        ∀ pre queue post q1 m q2,
          b.bids = pre ++ (o.price, queue) :: post →
          (∀ l ∈ pre, ¬ l.1 = o.price) →
          queue = q1 ++ m :: q2 → m.id = o.id → (∀ x ∈ q1, ¬ x.id = o.id) →
          (b.cancelOrder oid).1.bids =
            (if q1 ++ q2 = [] then pre ++ post
             else pre ++ (o.price, q1 ++ q2) :: post) ∧
          (b.cancelOrder oid).1.asks = b.asks) ∧
      (o.side = OrderType.SELL →
        ∀ pre queue post q1 m q2,
          b.asks = pre ++ (o.price, queue) :: post →
          (∀ l ∈ pre, ¬ l.1 = o.price) →
          queue = q1 ++ m :: q2 → m.id = o.id → (∀ x ∈ q1, ¬ x.id = o.id) →
          (b.cancelOrder oid).1.asks =
            (if q1 ++ q2 = [] then pre ++ post
             else pre ++ (o.price, q1 ++ q2) :: post) ∧
          (b.cancelOrder oid).1.bids = b.bids) ∧
      (b.cancelOrder oid).1.cancelOrder oid = ((b.cancelOrder oid).1, none, none)) := by
  cases hl : lookupKey oid b.open_orders with
  | none =>
    have he : b.cancelOrder oid = (b, none, none) := cancelOrder_of_absent b oid hl
    refine ⟨by rw [he], fun _ => he, fun o ho => ?_⟩
    exact Option.noConfusion ho
  | some o =>
    have hopen : (b.cancelOrder oid).1.open_orders = popKey oid b.open_orders := by
      unfold OrderBook.cancelOrder
      rw [hl]
      by_cases hs : o.side = OrderType.BUY <;> simp [hs]
    have hnone : lookupKey oid (b.cancelOrder oid).1.open_orders = none := by
      rw [hopen]
      exact lookupKey_popKey oid b.open_orders
    have hsecond :
        (b.cancelOrder oid).1.cancelOrder oid = ((b.cancelOrder oid).1, none, none) :=
      cancelOrder_of_absent _ _ hnone
    refine ⟨?_, ?_, ?_⟩
    · unfold OrderBook.cancelOrder
      rw [hl]
      by_cases hs : o.side = OrderType.BUY <;> simp [hs]
    · intro hcontra
      exact Option.noConfusion hcontra
    · intro o' ho'
      injection ho' with ho'
      subst ho'
      refine ⟨hnone, fun hfound => ?_, ?_, ?_, hsecond⟩
      · refine ⟨?_, rfl⟩
        unfold OrderBook.cancelOrder
        rw [hl]
        by_cases hs : o.side = OrderType.BUY <;> simp_all
      · intro hs pre queue post q1 m q2 hb hpre hqd hmid hq1
        have hrem : removeFromLevel o.id queue = some (q1 ++ q2) := by
          rw [hqd]
          exact removeFromLevel_decomp o.id q1 q2 m hmid hq1
        have hd := cancelAtPrice_decomp o.id o.price pre post queue (q1 ++ q2) hpre hrem
        have hb1 : (b.cancelOrder oid).1.bids =
            (cancelAtPrice o.id o.price b.bids).1 := by
          unfold OrderBook.cancelOrder
          rw [hl]
          simp [hs]
        have ha1 : (b.cancelOrder oid).1.asks = b.asks := by
          unfold OrderBook.cancelOrder
          rw [hl]
          simp [hs]
        constructor
        · rw [hb1, hb]
          exact hd.1
        · exact ha1
      · intro hs pre queue post q1 m q2 ha hpre hqd hmid hq1
        have hsb : ¬ o.side = OrderType.BUY := by
          rw [hs]
          intro h
          cases h
        have hrem : removeFromLevel o.id queue = some (q1 ++ q2) := by
          rw [hqd]
          exact removeFromLevel_decomp o.id q1 q2 m hmid hq1
        have hd := cancelAtPrice_decomp o.id o.price pre post queue (q1 ++ q2) hpre hrem
        have ha1 : (b.cancelOrder oid).1.asks =
            (cancelAtPrice o.id o.price b.asks).1 := by
          unfold OrderBook.cancelOrder
          rw [hl]
          simp [hsb]
        have hb1 : (b.cancelOrder oid).1.bids = b.bids := by
          unfold OrderBook.cancelOrder
          rw [hl]
          simp [hsb]
        constructor
        · rw [ha1, ha]
          exact hd.1
        · exact hb1

/-- Witness for `c5_amended_cancel` on `c5Book` and its resting order
id 7: the cancel returns `None`, drops the id from the index, sets the
order `CANCELED`, empties the bid side (the lone queue became empty, so
its level is deleted), leaves the ask side unchanged, and a second
cancel is a no-op. -/
theorem c5_amended_witness :
    ((c5Book.cancelOrder 7).2.2 = none) ∧
    lookupKey 7 (c5Book.cancelOrder 7).1.open_orders = none ∧
    (c5Book.cancelOrder 7).2.1 = some (Order.make OrderType.BUY 10 5 7 1).cancelOp ∧
    (c5Book.cancelOrder 7).1.bids = [] ∧
    (c5Book.cancelOrder 7).1.asks = [] ∧
    (c5Book.cancelOrder 7).1.cancelOrder 7 = ((c5Book.cancelOrder 7).1, none, none) := by
  have h := (c5_amended_cancel c5Book 7).2.2 (Order.make OrderType.BUY 10 5 7 1)
    (by norm_num +decide [c5Book, lookupKey, Order.make])
  have hq := h.2.2.1 rfl [] [Order.make OrderType.BUY 10 5 7 1] [] []
    (Order.make OrderType.BUY 10 5 7 1) []
    (by norm_num [c5Book, Order.make])
    (by intro l hl; exact absurd hl (List.not_mem_nil l))
    rfl rfl
    (by intro x hx; exact absurd hx (List.not_mem_nil x))
  refine ⟨(c5_amended_cancel c5Book 7).1, h.1,
    (h.2.1 (by norm_num +decide [c5Book, Order.make, cancelAtPrice,
      removeFromLevel])).1, ?_, ?_, h.2.2.2.2⟩
  · rw [hq.1]
    simp
  · rw [hq.2]
    norm_num [c5Book]

/-- Membership in the flattened orders of a book side. -/
theorem mem_sideOrdersOf {o : Order} {s : List (ℚ × List Order)} :
    o ∈ sideOrdersOf s ↔ ∃ l, l ∈ s ∧ o ∈ l.2 := by
  induction s with
  | nil => simp [sideOrdersOf]
  | cons l rest ih =>
    simp only [sideOrdersOf, List.foldr_cons, List.mem_append, List.mem_cons] at ih ⊢
    constructor
    · rintro (h | h)
      · exact ⟨l, Or.inl rfl, h⟩
      · obtain ⟨l', hl', ho⟩ := ih.mp h
        exact ⟨l', Or.inr hl', ho⟩
    · rintro ⟨l', hl' | hl', ho⟩
      · subst hl'
        exact Or.inl ho
      · exact Or.inr (ih.mpr ⟨l', hl', ho⟩)

/-- C9: depth pruning releases orders without touching them: every
order removed by `_enforce_market_depth` is a resting order of the
book, unchanged, and in particular still carries status `OPEN` — it is
never transitioned to `CANCELED` or `FILLED`. -/
theorem c9_prune_keeps_status (b : OrderBook)
    (h : ∀ o ∈ b.allOrders, o.status = OrderStatus.OPEN) :
    ∀ o ∈ (b.enforceMarketDepth).2,
      o ∈ b.allOrders ∧ o.status = OrderStatus.OPEN ∧
      o.status ≠ OrderStatus.CANCELED ∧ o.status ≠ OrderStatus.FILLED := by
  intro o ho
  have hmem : o ∈ b.allOrders := by
    unfold OrderBook.enforceMarketDepth at ho
    split at ho
    · split at ho
      · cases ho
      · simp only at ho
        have ho' := mem_sideOrdersOf.mp ho
        obtain ⟨l, hl, hol⟩ := ho'
        rw [List.mem_append] at hl
        unfold OrderBook.allOrders
        rw [List.mem_append]
        cases hl with
        | inl hb =>
          exact Or.inl (mem_sideOrdersOf.mpr ⟨l, List.mem_of_mem_filter hb, hol⟩)
        | inr ha =>
          exact Or.inr (mem_sideOrdersOf.mpr ⟨l, List.mem_of_mem_filter ha, hol⟩)
    · cases ho
  have hst := h o hmem
  refine ⟨hmem, hst, ?_, ?_⟩ <;> rw [hst] <;> intro hc <;> cases hc

/-- Witness for `c9_prune_keeps_status`: `c9Book` prunes its worse
bid level (depth 0) and the released orders keep status `OPEN`. -/
theorem c9_prune_keeps_status_witness :
    (∀ o ∈ c9Book.allOrders, o.status = OrderStatus.OPEN) ∧
    (∀ o ∈ (c9Book.enforceMarketDepth).2,
      o ∈ c9Book.allOrders ∧ o.status = OrderStatus.OPEN ∧
      o.status ≠ OrderStatus.CANCELED ∧ o.status ≠ OrderStatus.FILLED) :=
  ⟨by norm_num +decide [c9Book, OrderBook.allOrders, sideOrdersOf, Order.make,
      List.forall_mem_cons],
   c9_prune_keeps_status c9Book
     (by norm_num +decide [c9Book, OrderBook.allOrders, sideOrdersOf, Order.make,
        List.forall_mem_cons])⟩

/-- An id lookup fails on a filtered index when the filter rejects
every entry carrying that id. -/
theorem lookupKey_filter_none (k : Nat) (p : Nat × Order → Bool)
    (l : List (Nat × Order)) (h : ∀ e ∈ l, e.1 = k → p e = false) :
    lookupKey k (l.filter p) = none := by
  simp only [lookupKey, Option.map_eq_none']
  rw [List.find?_eq_none]
  intro x hx
  simp only [decide_eq_true_eq]
  intro hxk
  have hmem := List.mem_of_mem_filter hx
  have hp := List.of_mem_filter hx
  rw [h x hmem hxk] at hp
  cases hp

/-- C7: with both `tick_size` and `market_depth` set, pruning keeps
exactly the bid levels at or above `best_bid - tick_size * N` and the
ask levels at or below `best_ask + tick_size * N` (levels at exactly
the bound survive), removes every released order's id from the index,
and with `market_depth = 0` keeps only the best level of each side. -/
theorem c7_depth_bounds (b : OrderBook) (t : ℚ) (n : Nat)
    (ht : b.tick_size = some t) (hn : b.market_depth = some n) :
    (∀ bb qs rest, b.bids = (bb, qs) :: rest →
      (b.enforceMarketDepth).1.bids =
        b.bids.filter (fun l => decide (bb - t * (n : ℚ) ≤ l.1))) ∧
    (∀ ba qs rest, b.asks = (ba, qs) :: rest →
      (b.enforceMarketDepth).1.asks =
        b.asks.filter (fun l => decide (l.1 ≤ ba + t * (n : ℚ)))) ∧
    (∀ o ∈ (b.enforceMarketDepth).2,
      lookupKey o.id (b.enforceMarketDepth).1.open_orders = none) ∧
    (n = 0 → List.Pairwise (fun x y : ℚ × List Order => y.1 < x.1) b.bids →
      (b.enforceMarketDepth).1.bids = b.bids.take 1) ∧
    (n = 0 → List.Pairwise (fun x y : ℚ × List Order => x.1 < y.1) b.asks →
      (b.enforceMarketDepth).1.asks = b.asks.take 1) := by
  have hbids : ∀ bb qs rest, b.bids = (bb, qs) :: rest →
      (b.enforceMarketDepth).1.bids =
        b.bids.filter (fun l => decide (bb - t * (n : ℚ) ≤ l.1)) := by
    intro bb qs rest hb
    unfold OrderBook.enforceMarketDepth
    rw [ht, hn]
    have hg : ¬ (b.bids = [] ∧ b.asks = []) := by
      rintro ⟨h1, -⟩
      rw [hb] at h1
      cases h1
    simp only [hg, if_false, ite_false, if_neg hg]
    rw [hb]
    simp only []
    apply List.filter_congr
    intro a _
    rw [decide_eq_decide]
    simp only [decide_eq_true_eq, not_lt]
  have hasks : ∀ ba qs rest, b.asks = (ba, qs) :: rest →
      (b.enforceMarketDepth).1.asks =
        b.asks.filter (fun l => decide (l.1 ≤ ba + t * (n : ℚ))) := by
    intro ba qs rest ha
    unfold OrderBook.enforceMarketDepth
    rw [ht, hn]
    have hg : ¬ (b.bids = [] ∧ b.asks = []) := by
      rintro ⟨-, h2⟩
      rw [ha] at h2
      cases h2
    simp only [hg, if_false, ite_false, if_neg hg]
    rw [ha]
    simp only []
    apply List.filter_congr
    intro a _
    rw [decide_eq_decide]
    simp only [decide_eq_true_eq, not_lt]
  refine ⟨hbids, hasks, ?_, ?_, ?_⟩
  · intro o ho
    unfold OrderBook.enforceMarketDepth at ho ⊢
    rw [ht, hn] at ho ⊢
    simp only [] at ho ⊢
    by_cases hg : b.bids = [] ∧ b.asks = []
    · rw [if_pos hg] at ho
      cases ho
    · rw [if_neg hg] at ho ⊢
      simp only [] at ho ⊢
      apply lookupKey_filter_none
      intro e _ hek
      simp only [decide_not, Bool.not_eq_true', decide_eq_false_iff_not,
        Decidable.not_not, List.any_eq_true, decide_eq_true_eq]
      simp only [Bool.not_eq_false', decide_eq_true_eq]
      exact ⟨o, ho, hek.symm⟩
  · intro hn0 hpw
    cases hb : b.bids with
    | nil =>
      by_cases hg : b.bids = [] ∧ b.asks = []
      · unfold OrderBook.enforceMarketDepth
        rw [ht, hn]
        simp only []
        rw [if_pos hg, hb]
        rfl
      · unfold OrderBook.enforceMarketDepth
        rw [ht, hn]
        simp only []
        rw [if_neg hg]
        simp only []
        rw [hb]
        rfl
    | cons l rest =>
      obtain ⟨bb, qs⟩ := l
      rw [hbids bb qs rest hb, hb, hn0]
      simp only [Nat.cast_zero, mul_zero, sub_zero, List.filter_cons,
        le_refl, List.take_succ_cons, List.take_zero]
      rw [hb] at hpw
      have hrest : List.filter (fun l => decide (bb ≤ l.1)) rest = [] := by
        rw [List.filter_eq_nil_iff]
        intro a ha
        have := (List.pairwise_cons.mp hpw).1 a ha
        simp only [decide_eq_true_eq, not_le]
        exact this
      rw [hrest]
      simp
  · intro hn0 hpw
    cases hb : b.asks with
    | nil =>
      by_cases hg : b.bids = [] ∧ b.asks = []
      · unfold OrderBook.enforceMarketDepth
        rw [ht, hn]
        simp only []
        rw [if_pos hg, hb]
        rfl
      · unfold OrderBook.enforceMarketDepth
        rw [ht, hn]
        simp only []
        rw [if_neg hg]
        simp only []
        rw [hb]
        rfl
    | cons l rest =>
      obtain ⟨ba, qs⟩ := l
      rw [hasks ba qs rest hb, hb, hn0]
      simp only [Nat.cast_zero, mul_zero, add_zero, List.filter_cons,
        le_refl, List.take_succ_cons, List.take_zero]
      rw [hb] at hpw
      have hrest : List.filter (fun l => decide (l.1 ≤ ba)) rest = [] := by
        rw [List.filter_eq_nil_iff]
        intro a ha
        have := (List.pairwise_cons.mp hpw).1 a ha
        simp only [decide_eq_true_eq, not_le]
        exact this
      rw [hrest]
      simp

/-- Witness for `c7_depth_bounds` on `c7Book` (tick `1/20`, depth 3,
five bid levels). -/
theorem c7_depth_bounds_witness :
    c7Book.tick_size = some (1/20) ∧ c7Book.market_depth = some 3 ∧
    ((∀ bb qs rest, c7Book.bids = (bb, qs) :: rest →
      (c7Book.enforceMarketDepth).1.bids =
        c7Book.bids.filter (fun l => decide (bb - (1/20 : ℚ) * ((3 : ℕ) : ℚ) ≤ l.1))) ∧
     (∀ ba qs rest, c7Book.asks = (ba, qs) :: rest →
      (c7Book.enforceMarketDepth).1.asks =
        c7Book.asks.filter (fun l => decide (l.1 ≤ ba + (1/20 : ℚ) * ((3 : ℕ) : ℚ)))) ∧
     (∀ o ∈ (c7Book.enforceMarketDepth).2,
       lookupKey o.id (c7Book.enforceMarketDepth).1.open_orders = none) ∧
     ((3 : ℕ) = 0 → List.Pairwise (fun x y : ℚ × List Order => y.1 < x.1) c7Book.bids →
       (c7Book.enforceMarketDepth).1.bids = c7Book.bids.take 1) ∧
     ((3 : ℕ) = 0 → List.Pairwise (fun x y : ℚ × List Order => x.1 < y.1) c7Book.asks →
       (c7Book.enforceMarketDepth).1.asks = c7Book.asks.take 1)) :=
  ⟨rfl, rfl, c7_depth_bounds c7Book (1/20) 3 rfl rfl⟩

/-- Witness for `c4_fill_correct` on `BUY@10 qty 5` against `SELL@10
qty 3`. -/
theorem c4_fill_correct_witness :
    (0 < c4OrderA.quantity) ∧ (0 < c4OrderB.quantity) ∧
    (((c4OrderA.fill c4OrderB).2.2 = none ↔ c4OrderA.matches c4OrderB = false) ∧
     ∀ f, (c4OrderA.fill c4OrderB).2.2 = some f →
       f.quantity = min c4OrderA.quantity c4OrderB.quantity ∧
       0 < f.quantity ∧
       (c4OrderA.fill c4OrderB).1.quantity = c4OrderA.quantity - f.quantity ∧
       (c4OrderA.fill c4OrderB).2.1.quantity = c4OrderB.quantity - f.quantity ∧
       ((c4OrderA.fill c4OrderB).1.quantity = 0 →
         (c4OrderA.fill c4OrderB).1.status = OrderStatus.FILLED) ∧
       ((c4OrderA.fill c4OrderB).1.quantity ≠ 0 →
         (c4OrderA.fill c4OrderB).1.status = c4OrderA.status) ∧
       ((c4OrderA.fill c4OrderB).2.1.quantity = 0 →
         (c4OrderA.fill c4OrderB).2.1.status = OrderStatus.FILLED) ∧
       ((c4OrderA.fill c4OrderB).2.1.quantity ≠ 0 →
         (c4OrderA.fill c4OrderB).2.1.status = c4OrderB.status)) :=
  ⟨by norm_num [c4OrderA, Order.make], by norm_num [c4OrderB, Order.make],
   c4_fill_correct c4OrderA c4OrderB (by norm_num [c4OrderA, Order.make])
     (by norm_num [c4OrderB, Order.make])⟩

/-- `Order.fill` on non-matching orders is the identity with no
fill. -/
theorem Order.fill_of_not_matches (a b : Order) (h : a.matches b = false) :
    a.fill b = (a, b, none) := by
  unfold Order.fill
  simp [h]

/-- `Order.fill` on matching orders, written with explicit record
updates. -/
theorem Order.fill_of_matches (a b : Order) (h : a.matches b = true) :
    a.fill b =
      ({ a with
          quantity := a.quantity - min a.quantity b.quantity
          status := if a.quantity - min a.quantity b.quantity = 0 then
              OrderStatus.FILLED else a.status
          fills := a.fills ++ [fillRecord a b] },
       { b with
          quantity := b.quantity - min a.quantity b.quantity
          status := if b.quantity - min a.quantity b.quantity = 0 then
              OrderStatus.FILLED else b.status
          fills := b.fills ++ [fillRecord a b] },
       some (fillRecord a b)) := by
  unfold Order.fill fillRecord
  simp [h]

/-- Matching orders are on opposite sides. -/
theorem matches_side_ne (a b : Order) (h : a.matches b = true) :
    ¬ a.side = b.side := by
  intro hs
  unfold Order.matches at h
  simp [hs] at h

/-- `Order.matches` only reads the side and price of its argument. -/
theorem matches_congr (a b b' : Order) (hside : b'.side = b.side)
    (hprice : b'.price = b.price) : a.matches b' = a.matches b := by
  unfold Order.matches
  rw [hside, hprice]

/-- `makerId` only reads the taker's side. -/
theorem makerId_congr (a b : Order) (h : a.side = b.side) :
    makerId a = makerId b := by
  unfold makerId
  rw [h]

/-- The maker id of the fill between maker `a` and taker `b`. -/
theorem makerId_fillRecord (a b : Order) (h : ¬ a.side = b.side) :
    makerId b (fillRecord a b) = a.id := by
  unfold makerId fillRecord
  cases hb : b.side <;> cases ha : a.side <;> simp_all

/-- A closed incoming order sweeps nothing from a level. -/
theorem matchAtLevel_of_closed (inc : Order) (q : List Order)
    (h : inc.is_open = false) : matchAtLevel inc q = ⟨inc, q, [], []⟩ := by
  cases q with
  | nil => rfl
  | cons m rest => simp [matchAtLevel, h]

/-- Specification of one level sweep: the incoming order keeps its
side, price and id; its quantity stays non-negative and is positive
while it is open; its status only moves to `FILLED`; if it is still
open afterwards the whole queue was consumed; and the fills pair the
makers off in FIFO order — their maker ids are a prefix of the queue's
ids, the surviving queue is the matching suffix, with at most its
front order partially filled. -/
theorem matchAtLevel_spec (queue : List Order) (inc : Order)
    (hq : ∀ m ∈ queue, m.matches inc = true ∧ m.status = OrderStatus.OPEN ∧
          0 < m.quantity)
    (hio : inc.is_open = true → 0 < inc.quantity)
    (hnn : 0 ≤ inc.quantity) :
    (matchAtLevel inc queue).incoming.side = inc.side ∧
    (matchAtLevel inc queue).incoming.price = inc.price ∧
    (matchAtLevel inc queue).incoming.id = inc.id ∧
    0 ≤ (matchAtLevel inc queue).incoming.quantity ∧
    ((matchAtLevel inc queue).incoming.is_open = true →
      0 < (matchAtLevel inc queue).incoming.quantity) ∧
    ((matchAtLevel inc queue).incoming.status = inc.status ∨
      (matchAtLevel inc queue).incoming.status = OrderStatus.FILLED) ∧
    ((matchAtLevel inc queue).incoming.is_open = true →
      (matchAtLevel inc queue).queue = []) ∧
    (inc.is_open = true → queue ≠ [] → (matchAtLevel inc queue).fills ≠ []) ∧
    ∃ k, k ≤ queue.length ∧
      (matchAtLevel inc queue).fills.map (makerId inc) = (queue.map Order.id).take k ∧
      ((matchAtLevel inc queue).queue = queue.drop k ∨
        (0 < k ∧ ∃ m m1, queue.drop (k - 1) = m :: queue.drop k ∧
          m1.id = m.id ∧ m1.price = m.price ∧ m1.side = m.side ∧
          m1.status = OrderStatus.OPEN ∧ 0 < m1.quantity ∧ m1.quantity < m.quantity ∧
          (matchAtLevel inc queue).queue = m1 :: queue.drop k)) := by
  induction queue generalizing inc with
  | nil =>
    exact ⟨rfl, rfl, rfl, hnn, hio, Or.inl rfl, fun _ => rfl,
      fun _ h => absurd rfl h, 0, Nat.le_refl 0, rfl, Or.inl rfl⟩
  | cons m rest ih =>
    by_cases hopen : inc.is_open = true
    case neg =>
      rw [Bool.not_eq_true] at hopen
      rw [matchAtLevel_of_closed inc (m :: rest) hopen]
      refine ⟨rfl, rfl, rfl, hnn, hio, Or.inl rfl, ?_, ?_, 0, by simp, by simp,
        Or.inl rfl⟩
      · intro hc
        rw [hopen] at hc
        cases hc
      · intro hc
        rw [hopen] at hc
        cases hc
    case pos =>
      obtain ⟨hm, hst, hqty⟩ := hq m (List.mem_cons_self m rest)
      have hincq : 0 < inc.quantity := hio hopen
      have hside : ¬ m.side = inc.side := matches_side_ne m inc hm
      simp only [matchAtLevel, hopen, if_true, Order.fill_of_matches m inc hm]
      by_cases hfull : m.quantity - min m.quantity inc.quantity = 0
      · -- the maker is fully consumed and popped
        simp only [hfull, if_true, ite_true]
        have hstatus :
            (if (0 : ℚ) = 0 then OrderStatus.FILLED else m.status) =
              OrderStatus.FILLED := by simp
        set inc1 : Order :=
          { inc with
              quantity := inc.quantity - min m.quantity inc.quantity
              status := if inc.quantity - min m.quantity inc.quantity = 0 then
                  OrderStatus.FILLED else inc.status
              fills := inc.fills ++ [fillRecord m inc] } with hinc1
        have hq' : ∀ m' ∈ rest, m'.matches inc1 = true ∧
            m'.status = OrderStatus.OPEN ∧ 0 < m'.quantity := by
          intro m' hm'
          obtain ⟨h1, h2, h3⟩ := hq m' (List.mem_cons_of_mem m hm')
          exact ⟨(matches_congr m' inc inc1 rfl rfl).trans h1, h2, h3⟩
        have hnn' : 0 ≤ inc1.quantity := by
          simp only [hinc1]
          have := min_le_right m.quantity inc.quantity
          simp only [sub_nonneg]
          exact this
        have hio' : inc1.is_open = true → 0 < inc1.quantity := by
          intro ho1
          rcases lt_or_eq_of_le hnn' with h | h
          · exact h
          · exfalso
            have hcond : inc.quantity - min m.quantity inc.quantity = 0 := h.symm
            have hstat : inc1.status = OrderStatus.FILLED := by
              show (if inc.quantity - min m.quantity inc.quantity = 0 then
                  OrderStatus.FILLED else inc.status) = OrderStatus.FILLED
              rw [if_pos hcond]
            unfold Order.is_open at ho1
            rw [hstat] at ho1
            simp at ho1
        obtain ⟨i1, i2, i3, i4, i5, i6, i7, i8, k', hk', hfills, hdisj⟩ :=
          ih inc1 hq' hio' hnn'
        have hmk : makerId inc1 = makerId inc := makerId_congr inc1 inc rfl
        refine ⟨by simpa [hinc1] using i1, by simpa [hinc1] using i2,
          by simpa [hinc1] using i3, i4, i5, ?_, i7, ?_, k' + 1, ?_, ?_, ?_⟩
        · rcases i6 with h | h
          · by_cases hiq : inc.quantity - min m.quantity inc.quantity = 0
            · right
              rw [h]
              simp [hinc1, hiq]
            · left
              rw [h]
              simp [hinc1, hiq]
          · right
            exact h
        · intro _ _
          simp
        · simpa using hk'
        · have hmkid : makerId inc (fillRecord m inc) = m.id :=
            makerId_fillRecord m inc hside
          simp only [Option.toList_some, List.singleton_append, List.map_cons,
            List.take_succ_cons, hmkid]
          congr 1
        · rcases hdisj with h | ⟨hk0, mm, mm1, hdropeq, e1, e2, e3, e4, e5, e6, hqueue⟩
          · left
            rw [List.drop_succ_cons]
            exact h
          · right
            refine ⟨Nat.succ_pos k', mm, mm1, ?_, e1, e2, e3, e4, e5, e6, ?_⟩
            · have : k' + 1 - 1 = k' := rfl
              rw [this, List.drop_succ_cons]
              cases k' with
              | zero => cases hk0
              | succ k'' =>
                have h1 : (m :: rest).drop (k'' + 1) = rest.drop k'' := by
                  rw [List.drop_succ_cons]
                have h2 : k'' + 1 - 1 = k'' := rfl
                rw [h1]
                rw [h2] at hdropeq
                exact hdropeq
            · rw [List.drop_succ_cons]
              exact hqueue
      · -- the maker survives partially filled; the incoming is exhausted
        have hmin : min m.quantity inc.quantity = inc.quantity := by
          rcases min_choice m.quantity inc.quantity with h | h
          · exfalso
            apply hfull
            rw [h]
            ring
          · exact h
        have hstm : (if m.quantity - min m.quantity inc.quantity = 0 then
            OrderStatus.FILLED else m.status) = m.status := by
          rw [if_neg hfull]
        have hne : ¬ (if m.quantity - min m.quantity inc.quantity = 0 then
            OrderStatus.FILLED else m.status) = OrderStatus.FILLED := by
          rw [hstm, hst]
          intro hc
          cases hc
        simp only [hne, if_false, ite_false]
        have hinc1q : inc.quantity - min m.quantity inc.quantity = 0 := by
          rw [hmin]
          ring
        have hclosed :
            ({ inc with
                quantity := inc.quantity - min m.quantity inc.quantity
                status := if inc.quantity - min m.quantity inc.quantity = 0 then
                    OrderStatus.FILLED else inc.status
                fills := inc.fills ++ [fillRecord m inc] } : Order).is_open
              = false := by
          simp [Order.is_open, hinc1q]
        rw [matchAtLevel_of_closed _ rest hclosed]
        refine ⟨rfl, rfl, rfl, ?_, ?_, ?_, ?_, ?_, 1, ?_, ?_, ?_⟩
        · simp only [hinc1q]
          exact le_refl 0
        · intro hc
          rw [hclosed] at hc
          cases hc
        · right
          simp [hinc1q]
        · intro hc
          rw [hclosed] at hc
          cases hc
        · intro _ _
          simp
        · simp
        · simp [makerId_fillRecord m inc hside]
        · right
          refine ⟨Nat.one_pos, m,
            { m with
                quantity := m.quantity - min m.quantity inc.quantity
                status := if m.quantity - min m.quantity inc.quantity = 0 then
                    OrderStatus.FILLED else m.status
                fills := m.fills ++ [fillRecord m inc] }, ?_, rfl, rfl, rfl, ?_, ?_, ?_, ?_⟩
          · simp
          · show (if m.quantity - min m.quantity inc.quantity = 0 then
                OrderStatus.FILLED else m.status) = OrderStatus.OPEN
            rw [hstm]
            exact hst
          · have hle : 0 ≤ m.quantity - min m.quantity inc.quantity := by
              simp only [sub_nonneg]
              exact min_le_left m.quantity inc.quantity
            exact lt_of_le_of_ne hle (Ne.symm hfull)
          · simp only []
            rw [hmin]
            exact sub_lt_self m.quantity hincq
          · simp

/-- A closed incoming order exits the matching loop immediately, for
any fuel. -/
theorem matchLoop_of_closed (fuel : Nat) (inc : Order)
    (book : List (ℚ × List Order)) (h : inc.is_open = false) :
    matchLoop fuel inc book = ⟨inc, book, [], []⟩ := by
  cases fuel with
  | zero => rfl
  | succ f =>
    cases book with
    | nil => rfl
    | cons hd rest =>
      obtain ⟨p, q⟩ := hd
      simp [matchLoop, h]

/-- At a price level that crosses the incoming order, every resting
order of the opposite side matches it. -/
theorem matches_of_no_break (m inc : Order) (best : ℚ) (hp : m.price = best)
    (hside : ¬ m.side = inc.side) (hb : priceBreak inc best = false) :
    m.matches inc = true := by
  unfold priceBreak at hb
  unfold Order.matches
  rw [if_neg hside]
  cases hi : inc.side with
  | BUY =>
    have hms : m.side = OrderType.SELL := by
      cases hm : m.side
      · exact absurd (hm.trans hi.symm) hside
      · rfl
    rw [hi] at hb
    simp only [hms] at *
    simp only [Bool.or_eq_false_iff, Bool.and_eq_false_iff] at hb
    rcases hb.1 with h | h
    · simp at h
    · simp only [decide_eq_false_iff_not, not_lt] at h
      simp [hp, h]
  | SELL =>
    have hms : m.side = OrderType.BUY := by
      cases hm : m.side
      · rfl
      · exact absurd (hm.trans hi.symm) hside
    rw [hi] at hb
    simp only [hms] at *
    simp only [Bool.or_eq_false_iff, Bool.and_eq_false_iff] at hb
    rcases hb.2 with h | h
    · simp at h
    · simp only [decide_eq_false_iff_not, not_lt] at h
      simp [hp, h]

/-- Flattening a book side, level by level. -/
theorem sideOrdersOf_cons (l : ℚ × List Order) (rest : List (ℚ × List Order)) :
    sideOrdersOf (l :: rest) = l.2 ++ sideOrdersOf rest := rfl

/-- The size measure of a book side, level by level. -/
theorem sideSize_cons (l : ℚ × List Order) (rest : List (ℚ × List Order)) :
    sideSize (l :: rest) = l.2.length + 1 + sideSize rest := rfl

/-- Specification of the matching loop under sufficient fuel: the
incoming order keeps its identity and only loses quantity; the
surviving opposite levels are a key-suffix of the original ones and
stay well-formed; when the incoming order is still open at exit the
opposite side is exhausted or its best level no longer crosses; and
the fills consume the flattened opposite book in order — their maker
ids are a prefix of the flattened ids, and the surviving flattened
book is the matching suffix with at most its front order partially
filled. -/
theorem matchLoop_spec (fuel : Nat) (book : List (ℚ × List Order)) (inc : Order)
    (hWF : ∀ l ∈ book, l.2 ≠ [] ∧ ∀ m ∈ l.2, m.price = l.1 ∧ ¬ m.side = inc.side ∧
           m.status = OrderStatus.OPEN ∧ 0 < m.quantity)
    (hio : inc.is_open = true → 0 < inc.quantity)
    (hnn : 0 ≤ inc.quantity)
    (hfuel : sideSize book < fuel) :
    (matchLoop fuel inc book).incoming.side = inc.side ∧
    (matchLoop fuel inc book).incoming.price = inc.price ∧
    (matchLoop fuel inc book).incoming.id = inc.id ∧
    0 ≤ (matchLoop fuel inc book).incoming.quantity ∧
    ((matchLoop fuel inc book).incoming.is_open = true →
      0 < (matchLoop fuel inc book).incoming.quantity) ∧
    ((matchLoop fuel inc book).incoming.status = inc.status ∨
      (matchLoop fuel inc book).incoming.status = OrderStatus.FILLED) ∧
    ((matchLoop fuel inc book).book.map Prod.fst) <:+ (book.map Prod.fst) ∧
    (∀ l ∈ (matchLoop fuel inc book).book, l.2 ≠ [] ∧ ∀ m ∈ l.2,
      m.price = l.1 ∧ ¬ m.side = inc.side ∧ m.status = OrderStatus.OPEN ∧
      0 < m.quantity) ∧
    ((matchLoop fuel inc book).incoming.is_open = true →
      (matchLoop fuel inc book).book = [] ∨
      ∃ p q rest2, (matchLoop fuel inc book).book = (p, q) :: rest2 ∧
        priceBreak (matchLoop fuel inc book).incoming p = true) ∧
    ∃ k, k ≤ (sideOrdersOf book).length ∧
      (matchLoop fuel inc book).fills.map (makerId inc) =
        ((sideOrdersOf book).map Order.id).take k ∧
      (sideOrdersOf (matchLoop fuel inc book).book = (sideOrdersOf book).drop k ∨
        (0 < k ∧ ∃ m m1,
          (sideOrdersOf book).drop (k - 1) = m :: (sideOrdersOf book).drop k ∧
          m1.id = m.id ∧ m1.price = m.price ∧ m1.side = m.side ∧
          m1.status = OrderStatus.OPEN ∧ 0 < m1.quantity ∧ m1.quantity < m.quantity ∧
          sideOrdersOf (matchLoop fuel inc book).book =
            m1 :: (sideOrdersOf book).drop k)) := by
  induction fuel generalizing book inc with
  | zero => exact absurd hfuel (Nat.not_lt_zero _)
  | succ fuel ih =>
    cases book with
    | nil =>
      have hstep : matchLoop (fuel + 1) inc [] = ⟨inc, [], [], []⟩ := rfl
      rw [hstep]
      exact ⟨rfl, rfl, rfl, hnn, hio, Or.inl rfl, List.suffix_refl _,
        fun l hl => absurd hl (List.not_mem_nil l), fun _ => Or.inl rfl,
        0, Nat.zero_le _, rfl, Or.inl rfl⟩
    | cons hd rest =>
      obtain ⟨best, queue⟩ := hd
      by_cases hopen : inc.is_open = true
      case neg =>
        rw [Bool.not_eq_true] at hopen
        rw [matchLoop_of_closed (fuel + 1) inc ((best, queue) :: rest) hopen]
        refine ⟨rfl, rfl, rfl, hnn, hio, Or.inl rfl, List.suffix_refl _, hWF,
          ?_, 0, Nat.zero_le _, rfl, Or.inl rfl⟩
        intro hc
        rw [hopen] at hc
        cases hc
      case pos =>
        by_cases hbreak : priceBreak inc best = true
        · have hstep : matchLoop (fuel + 1) inc ((best, queue) :: rest) =
              ⟨inc, (best, queue) :: rest, [], []⟩ := by
            simp [matchLoop, hopen, hbreak]
          rw [hstep]
          refine ⟨rfl, rfl, rfl, hnn, hio, Or.inl rfl, List.suffix_refl _, hWF,
            ?_, 0, Nat.zero_le _, rfl, Or.inl rfl⟩
          intro _
          exact Or.inr ⟨best, queue, rest, rfl, hbreak⟩
        · rw [Bool.not_eq_true] at hbreak
          obtain ⟨hlvne, hlv⟩ := hWF (best, queue) (List.mem_cons_self _ _)
          have hq : ∀ m ∈ queue, m.matches inc = true ∧
              m.status = OrderStatus.OPEN ∧ 0 < m.quantity := by
            intro m hm
            obtain ⟨hprice, hside, hst, hqty⟩ := hlv m hm
            exact ⟨matches_of_no_break m inc best hprice hside hbreak, hst, hqty⟩
          obtain ⟨a1, a2, a3, a4, a5, a6, a7, a8, k1, hk1, hfills1, hdisj1⟩ :=
            matchAtLevel_spec queue inc hq hio hnn
          have hstep : matchLoop (fuel + 1) inc ((best, queue) :: rest) =
              ⟨(matchLoop fuel (matchAtLevel inc queue).incoming
                  (if (matchAtLevel inc queue).queue = [] then rest
                   else (best, (matchAtLevel inc queue).queue) :: rest)).incoming,
               (matchLoop fuel (matchAtLevel inc queue).incoming
                  (if (matchAtLevel inc queue).queue = [] then rest
                   else (best, (matchAtLevel inc queue).queue) :: rest)).book,
               (matchAtLevel inc queue).fills ++
                 (matchLoop fuel (matchAtLevel inc queue).incoming
                    (if (matchAtLevel inc queue).queue = [] then rest
                     else (best, (matchAtLevel inc queue).queue) :: rest)).fills,
               (matchAtLevel inc queue).removed ++
                 (matchLoop fuel (matchAtLevel inc queue).incoming
                    (if (matchAtLevel inc queue).queue = [] then rest
                     else (best, (matchAtLevel inc queue).queue) :: rest)).removed⟩ := by
            simp only [matchLoop, hopen, not_true_eq_false, if_false, ite_false,
              hbreak, Bool.false_eq_true]
          by_cases hopen1 : (matchAtLevel inc queue).incoming.is_open = true
          · -- the whole level was consumed; the loop continues on the rest
            have hq1 : (matchAtLevel inc queue).queue = [] := a7 hopen1
            have hk1len : k1 = queue.length := by
              rcases hdisj1 with h | ⟨-, m, m1, -, -, -, -, -, -, -, hqe⟩
              · have := List.drop_eq_nil_iff.mp (hq1 ▸ h.symm)
                omega
              · rw [hq1] at hqe
                cases hqe
            have hWF' : ∀ l ∈ rest, l.2 ≠ [] ∧ ∀ m ∈ l.2, m.price = l.1 ∧
                ¬ m.side = (matchAtLevel inc queue).incoming.side ∧
                m.status = OrderStatus.OPEN ∧ 0 < m.quantity := by
              intro l hl
              obtain ⟨hne, hm⟩ := hWF l (List.mem_cons_of_mem _ hl)
              refine ⟨hne, fun m hmm => ?_⟩
              obtain ⟨h1, h2, h3, h4⟩ := hm m hmm
              rw [a1]
              exact ⟨h1, h2, h3, h4⟩
            have hfuel' : sideSize rest < fuel := by
              rw [sideSize_cons] at hfuel
              omega
            obtain ⟨j1, j2, j3, j4, j5, j6, j7, j8, j9, k2, hk2, hfills2, hdisj2⟩ :=
              ih rest (matchAtLevel inc queue).incoming hWF' a5 a4 hfuel'
            rw [hstep, if_pos hq1]
            have hmk : makerId (matchAtLevel inc queue).incoming = makerId inc :=
              makerId_congr _ inc a1
            have hflat : sideOrdersOf ((best, queue) :: rest) =
                queue ++ sideOrdersOf rest := rfl
            refine ⟨j1.trans a1, j2.trans a2, j3.trans a3, j4, j5, ?_, ?_, ?_, ?_,
              queue.length + k2, ?_, ?_, ?_⟩
            · rcases j6 with h | h
              · rcases a6 with h' | h'
                · exact Or.inl (h.trans h')
                · exact Or.inr (h.trans h')
              · exact Or.inr h
            · refine j7.trans ?_
              rw [List.map_cons]
              exact List.suffix_cons _ _
            · intro l hl
              obtain ⟨hne, hm⟩ := j8 l hl
              refine ⟨hne, fun m hmm => ?_⟩
              obtain ⟨h1, h2, h3, h4⟩ := hm m hmm
              rw [a1] at h2
              exact ⟨h1, h2, h3, h4⟩
            · exact j9
            · rw [hflat, List.length_append]
              have := hk2
              omega
            · have h1 : (matchAtLevel inc queue).fills.map (makerId inc) =
                  queue.map Order.id := by
                rw [hfills1, hk1len]
                have hlen2 : queue.length = (queue.map Order.id).length := by simp
                rw [hlen2, List.take_length]
              have h2 : (matchLoop fuel (matchAtLevel inc queue).incoming
                    rest).fills.map (makerId inc) =
                  ((sideOrdersOf rest).map Order.id).take k2 := by
                rw [← hmk]
                exact hfills2
              rw [List.map_append, h1, h2, hflat, List.map_append]
              have hlen3 : queue.length + k2 = (queue.map Order.id).length + k2 := by
                simp
              rw [hlen3, List.take_append k2]
            · have hdrop : ∀ n, (queue ++ sideOrdersOf rest).drop (queue.length + n) =
                  (sideOrdersOf rest).drop n := by
                intro n
                exact List.drop_append n
              rcases hdisj2 with h | ⟨hk0, m, m1, hde, e1, e2, e3, e4, e5, e6, hqe⟩
              · left
                rw [hflat, hdrop k2]
                exact h
              · right
                refine ⟨by omega, m, m1, ?_, e1, e2, e3, e4, e5, e6, ?_⟩
                · rw [hflat]
                  have harith : queue.length + k2 - 1 = queue.length + (k2 - 1) := by
                    omega
                  rw [harith, List.drop_append (k2 - 1), hdrop k2]
                  exact hde
                · rw [hflat, hdrop k2]
                  exact hqe
          · -- the incoming order closed inside this level; the loop stops
            rw [Bool.not_eq_true] at hopen1
            rw [hstep, matchLoop_of_closed fuel _ _ hopen1]
            simp only [List.append_nil]
            have hflat : sideOrdersOf ((best, queue) :: rest) =
                queue ++ sideOrdersOf rest := rfl
            have hq1len : k1 ≤ queue.length := hk1
            refine ⟨a1, a2, a3, a4, a5, a6, ?_, ?_, ?_, k1, ?_, ?_, ?_⟩
            · by_cases hq1 : (matchAtLevel inc queue).queue = []
              · rw [if_pos hq1]
                rw [List.map_cons]
                exact List.suffix_cons _ _
              · rw [if_neg hq1]
                rw [List.map_cons, List.map_cons]
            · intro l hl
              by_cases hq1 : (matchAtLevel inc queue).queue = []
              · rw [if_pos hq1] at hl
                exact hWF l (List.mem_cons_of_mem _ hl)
              · simp only [if_neg hq1] at hl
                rcases List.mem_cons.mp hl with h | h
                · subst h
                  refine ⟨hq1, fun m hm => ?_⟩
                  rcases hdisj1 with hfull | ⟨-, mm, mm1, hdd, e1, e2, e3, e4, e5, -, hqe⟩
                  · rw [hfull] at hm
                    exact hlv m (List.mem_of_mem_drop hm)
                  · rw [hqe] at hm
                    rcases List.mem_cons.mp hm with h' | h'
                    · subst h'
                      obtain ⟨q1, q2, q3, q4⟩ :=
                        hlv mm (by
                          have hmm2 : mm ∈ queue.drop (k1 - 1) := by
                            rw [hdd]
                            exact List.mem_cons_self _ _
                          exact List.mem_of_mem_drop hmm2)
                      refine ⟨e2.trans q1, ?_, e4, e5⟩
                      rw [e3]
                      exact q2
                    · exact hlv m (List.mem_of_mem_drop h')
                · exact hWF l (List.mem_cons_of_mem _ h)
            · intro hc
              rw [hopen1] at hc
              cases hc
            · rw [hflat, List.length_append]
              omega
            · rw [hflat, List.map_append, List.take_append_of_le_length
                (by simpa using hq1len)]
              exact hfills1
            · rcases hdisj1 with h | ⟨hk0, m, m1, hde, e1, e2, e3, e4, e5, e6, hqe⟩
              · by_cases hq1 : (matchAtLevel inc queue).queue = []
                · left
                  have hlen : queue.length ≤ k1 := by
                    rw [hq1] at h
                    exact List.drop_eq_nil_iff.mp h.symm
                  have hk1len : k1 = queue.length := le_antisymm hq1len hlen
                  rw [if_pos hq1, hflat, hk1len]
                  have h0 : (queue ++ sideOrdersOf rest).drop (queue.length + 0) =
                      (sideOrdersOf rest).drop 0 := List.drop_append 0
                  rw [Nat.add_zero, List.drop_zero] at h0
                  exact h0.symm
                · left
                  rw [if_neg hq1]
                  rw [sideOrdersOf_cons, h, hflat]
                  exact (List.drop_append_of_le_length hq1len).symm
              · right
                have hkpos : 0 < k1 := hk0
                have hkm1 : k1 - 1 ≤ queue.length := by omega
                refine ⟨hk0, m, m1, ?_, e1, e2, e3, e4, e5, e6, ?_⟩
                · rw [hflat, List.drop_append_of_le_length hkm1,
                    List.drop_append_of_le_length hq1len, hde]
                  rfl
                · have hq1ne : (matchAtLevel inc queue).queue ≠ [] := by
                    rw [hqe]
                    exact List.cons_ne_nil _ _
                  rw [if_neg hq1ne]
                  rw [sideOrdersOf_cons, hqe, hflat,
                    List.drop_append_of_le_length hq1len]
                  rfl

/-- A freshly inserted order rests in the side it was inserted
into. -/
theorem self_mem_insertLevel (before : ℚ → ℚ → Bool) (p : ℚ) (o : Order)
    (s : List (ℚ × List Order)) : o ∈ sideOrdersOf (insertLevel before p o s) := by
  induction s with
  | nil => simp [insertLevel, sideOrdersOf]
  | cons hd rest ih =>
    obtain ⟨q, orders⟩ := hd
    by_cases h1 : p = q
    · simp [insertLevel, h1, sideOrdersOf_cons]
    · by_cases h2 : before p q
      · simp [insertLevel, h1, h2, sideOrdersOf_cons]
      · simp only [insertLevel, if_neg h1, if_neg h2, sideOrdersOf_cons,
          List.mem_append]
        exact Or.inr ih

/-- C2: on a well-formed book, `add` returns exactly the matching
loop's fills; those fills consume the opposite side in maker
price-time priority — their maker ids are a prefix of the flattened
opposite book (levels best-first, FIFO within a level) and the
surviving opposite book is the matching suffix with at most its front
maker partially filled; and the incoming taker ends fully filled or
is rested on its own side. -/
theorem c2_match_priority (b : OrderBook) (o : Order)
    (hWF : b.WF) (hv : b.isValidPrice o.price = true)
    (ho : o.status = OrderStatus.OPEN) (hq : 0 < o.quantity) :
    (b.add o).2.2 = (b.matchIncoming o).2.2 ∧
    (b.add o).2.1 = (b.matchIncoming o).2.1 ∧
    (∃ k, k ≤ (sideOrdersOf (if o.side = OrderType.SELL then b.bids
        else b.asks)).length ∧
      (b.matchIncoming o).2.2.map (makerId o) =
        ((sideOrdersOf (if o.side = OrderType.SELL then b.bids else b.asks)).map
          Order.id).take k ∧
      (sideOrdersOf (if o.side = OrderType.SELL then (b.matchIncoming o).1.bids
          else (b.matchIncoming o).1.asks) =
        (sideOrdersOf (if o.side = OrderType.SELL then b.bids else b.asks)).drop k ∨
       (0 < k ∧ ∃ m m1,
         (sideOrdersOf (if o.side = OrderType.SELL then b.bids
             else b.asks)).drop (k - 1) =
           m :: (sideOrdersOf (if o.side = OrderType.SELL then b.bids
             else b.asks)).drop k ∧
         m1.id = m.id ∧ m1.price = m.price ∧ m1.side = m.side ∧
         m1.status = OrderStatus.OPEN ∧ 0 < m1.quantity ∧ m1.quantity < m.quantity ∧
         sideOrdersOf (if o.side = OrderType.SELL then (b.matchIncoming o).1.bids
            else (b.matchIncoming o).1.asks) =
           m1 :: (sideOrdersOf (if o.side = OrderType.SELL then b.bids
             else b.asks)).drop k))) ∧
    ((b.matchIncoming o).2.1.status = OrderStatus.FILLED ∨
     ((b.matchIncoming o).2.1.is_open = true ∧
      (b.matchIncoming o).2.1 ∈ sideOrdersOf
        (if o.side = OrderType.BUY
         then ((b.matchIncoming o).1.restOrder (b.matchIncoming o).2.1).bids
         else ((b.matchIncoming o).1.restOrder (b.matchIncoming o).2.1).asks))) := by
  have hio : o.is_open = true → 0 < o.quantity := fun _ => hq
  have hnn : 0 ≤ o.quantity := le_of_lt hq
  obtain ⟨hP1, hP2, hWb, hWa⟩ := hWF
  have hadd : (b.add o).2.2 = (b.matchIncoming o).2.2 ∧
      (b.add o).2.1 = (b.matchIncoming o).2.1 := by
    unfold OrderBook.add
    rw [hv]
    simp
  by_cases hs : o.side = OrderType.SELL
  · have hWF' : ∀ l ∈ b.bids, l.2 ≠ [] ∧ ∀ m ∈ l.2, m.price = l.1 ∧
        ¬ m.side = o.side ∧ m.status = OrderStatus.OPEN ∧ 0 < m.quantity := by
      intro l hl
      obtain ⟨hne, hm⟩ := hWb l hl
      refine ⟨hne, fun m hmm => ?_⟩
      obtain ⟨h1, h2, h3, h4⟩ := hm m hmm
      refine ⟨h1, ?_, h3, h4⟩
      rw [h2, hs]
      intro hc
      cases hc
    obtain ⟨s1, s2, s3, s4, s5, s6, s7, s8, s9, k, hk, hfills, hdisj⟩ :=
      matchLoop_spec (sideSize b.bids + 1) b.bids o hWF' hio hnn
        (Nat.lt_succ_self _)
    have hfe : (b.matchIncoming o).2.2 =
        (matchLoop (sideSize b.bids + 1) o b.bids).fills := by
      unfold OrderBook.matchIncoming
      rw [if_pos hs, if_pos hs]
    have hie : (b.matchIncoming o).2.1 =
        (matchLoop (sideSize b.bids + 1) o b.bids).incoming := by
      unfold OrderBook.matchIncoming
      rw [if_pos hs, if_pos hs]
    have hbe : (b.matchIncoming o).1.bids =
        (matchLoop (sideSize b.bids + 1) o b.bids).book := by
      unfold OrderBook.matchIncoming
      rw [if_pos hs, if_pos hs]
    refine ⟨hadd.1, hadd.2, ?_, ?_⟩
    · rw [if_pos hs, if_pos hs, hfe, hbe]
      exact ⟨k, hk, hfills, hdisj⟩
    · rcases s6 with h | h
      · right
        have hnb : ¬ o.side = OrderType.BUY := by
          rw [hs]
          intro hc
          cases hc
        have hsideX : (b.matchIncoming o).2.1.side = OrderType.SELL := by
          rw [hie, s1, hs]
        have hnbX : ¬ (b.matchIncoming o).2.1.side = OrderType.BUY := by
          rw [hsideX]
          intro hc
          cases hc
        constructor
        · rw [hie]
          unfold Order.is_open
          rw [h, ho]
          simp
        · rw [if_neg hnb]
          unfold OrderBook.restOrder
          rw [if_neg hnbX]
          exact self_mem_insertLevel _ _ _ _
      · left
        rw [hie]
        exact h
  · have hsb : o.side = OrderType.BUY := by
      cases hos : o.side
      · rfl
      · exact absurd hos hs
    have hWF' : ∀ l ∈ b.asks, l.2 ≠ [] ∧ ∀ m ∈ l.2, m.price = l.1 ∧
        ¬ m.side = o.side ∧ m.status = OrderStatus.OPEN ∧ 0 < m.quantity := by
      intro l hl
      obtain ⟨hne, hm⟩ := hWa l hl
      refine ⟨hne, fun m hmm => ?_⟩
      obtain ⟨h1, h2, h3, h4⟩ := hm m hmm
      refine ⟨h1, ?_, h3, h4⟩
      rw [h2, hsb]
      intro hc
      cases hc
    obtain ⟨s1, s2, s3, s4, s5, s6, s7, s8, s9, k, hk, hfills, hdisj⟩ :=
      matchLoop_spec (sideSize b.asks + 1) b.asks o hWF' hio hnn
        (Nat.lt_succ_self _)
    have hfe : (b.matchIncoming o).2.2 =
        (matchLoop (sideSize b.asks + 1) o b.asks).fills := by
      unfold OrderBook.matchIncoming
      rw [if_neg hs, if_neg hs]
    have hie : (b.matchIncoming o).2.1 =
        (matchLoop (sideSize b.asks + 1) o b.asks).incoming := by
      unfold OrderBook.matchIncoming
      rw [if_neg hs, if_neg hs]
    have hbe : (b.matchIncoming o).1.asks =
        (matchLoop (sideSize b.asks + 1) o b.asks).book := by
      unfold OrderBook.matchIncoming
      rw [if_neg hs, if_neg hs]
    refine ⟨hadd.1, hadd.2, ?_, ?_⟩
    · rw [if_neg hs, if_neg hs, hfe, hbe]
      exact ⟨k, hk, hfills, hdisj⟩
    · rcases s6 with h | h
      · right
        have hsideX : (b.matchIncoming o).2.1.side = OrderType.BUY := by
          rw [hie, s1, hsb]
        constructor
        · rw [hie]
          unfold Order.is_open
          rw [h, ho]
          simp
        · rw [if_pos hsb]
          unfold OrderBook.restOrder
          rw [if_pos hsideX]
          exact self_mem_insertLevel _ _ _ _
      · left
        rw [hie]
        exact h

/-- Witness for `c2_match_priority`: the spec's price-time-priority
scenario, `Sell@10 qty 2` against a book with two resting buys at
10. -/
theorem c2_match_priority_witness :
    c2Book.WF ∧ c2Book.isValidPrice c2Sell.price = true ∧
    c2Sell.status = OrderStatus.OPEN ∧ 0 < c2Sell.quantity ∧
    ((c2Book.add c2Sell).2.2 = (c2Book.matchIncoming c2Sell).2.2 ∧
     (c2Book.add c2Sell).2.1 = (c2Book.matchIncoming c2Sell).2.1 ∧
     (∃ k, k ≤ (sideOrdersOf (if c2Sell.side = OrderType.SELL then c2Book.bids
         else c2Book.asks)).length ∧
       (c2Book.matchIncoming c2Sell).2.2.map (makerId c2Sell) =
         ((sideOrdersOf (if c2Sell.side = OrderType.SELL then c2Book.bids
           else c2Book.asks)).map Order.id).take k ∧
       (sideOrdersOf (if c2Sell.side = OrderType.SELL
           then (c2Book.matchIncoming c2Sell).1.bids
           else (c2Book.matchIncoming c2Sell).1.asks) =
         (sideOrdersOf (if c2Sell.side = OrderType.SELL then c2Book.bids
           else c2Book.asks)).drop k ∨
        (0 < k ∧ ∃ m m1,
          (sideOrdersOf (if c2Sell.side = OrderType.SELL then c2Book.bids
              else c2Book.asks)).drop (k - 1) =
            m :: (sideOrdersOf (if c2Sell.side = OrderType.SELL then c2Book.bids
              else c2Book.asks)).drop k ∧
          m1.id = m.id ∧ m1.price = m.price ∧ m1.side = m.side ∧
          m1.status = OrderStatus.OPEN ∧ 0 < m1.quantity ∧ m1.quantity < m.quantity ∧
          sideOrdersOf (if c2Sell.side = OrderType.SELL
              then (c2Book.matchIncoming c2Sell).1.bids
              else (c2Book.matchIncoming c2Sell).1.asks) =
            m1 :: (sideOrdersOf (if c2Sell.side = OrderType.SELL then c2Book.bids
              else c2Book.asks)).drop k))) ∧
     ((c2Book.matchIncoming c2Sell).2.1.status = OrderStatus.FILLED ∨
      ((c2Book.matchIncoming c2Sell).2.1.is_open = true ∧
       (c2Book.matchIncoming c2Sell).2.1 ∈ sideOrdersOf
         (if c2Sell.side = OrderType.BUY
          then ((c2Book.matchIncoming c2Sell).1.restOrder
            (c2Book.matchIncoming c2Sell).2.1).bids
          else ((c2Book.matchIncoming c2Sell).1.restOrder
            (c2Book.matchIncoming c2Sell).2.1).asks)))) :=
  ⟨by norm_num +decide [OrderBook.WF, c2Book, levelWF, Order.make],
   by norm_num +decide [OrderBook.isValidPrice, c2Book, c2Sell, Order.make, Rat.den],
   rfl, by norm_num [c2Sell, Order.make],
   c2_match_priority c2Book c2Sell
     (by norm_num +decide [OrderBook.WF, c2Book, levelWF, Order.make])
     (by norm_num +decide [OrderBook.isValidPrice, c2Book, c2Sell, Order.make, Rat.den])
     rfl (by norm_num [c2Sell, Order.make])⟩

/-- An order type other than `SELL` is `BUY`. -/
theorem OrderType.eq_buy_of_ne_sell (t : OrderType) (h : ¬ t = OrderType.SELL) :
    t = OrderType.BUY := by
  cases t
  · rfl
  · exact absurd rfl h

/-- An order type other than `BUY` is `SELL`. -/
theorem OrderType.eq_sell_of_ne_buy (t : OrderType) (h : ¬ t = OrderType.BUY) :
    t = OrderType.SELL := by
  cases t
  · exact absurd rfl h
  · rfl

/-- In a strictly descending list, every member is at most the
head. -/
theorem le_head_of_pairwise_gt (k : ℚ) (ktl : List ℚ) (x : ℚ)
    (hP : List.Pairwise (fun a c => c < a) (k :: ktl)) (hx : x ∈ k :: ktl) :
    x ≤ k := by
  rcases List.mem_cons.mp hx with h | h
  · exact le_of_eq h
  · exact le_of_lt ((List.pairwise_cons.mp hP).1 x h)

/-- In a strictly ascending list, the head is at most every member. -/
theorem head_le_of_pairwise_lt (k : ℚ) (ktl : List ℚ) (x : ℚ)
    (hP : List.Pairwise (fun a c => a < c) (k :: ktl)) (hx : x ∈ k :: ktl) :
    k ≤ x := by
  rcases List.mem_cons.mp hx with h | h
  · exact le_of_eq h.symm
  · exact le_of_lt ((List.pairwise_cons.mp hP).1 x h)

/-- A book whose side keys are sublists of a sorted uncrossed book's
keys is itself uncrossed. -/
theorem notCrossed_of_keys_sublist (b b1 : OrderBook)
    (hb : List.Sublist (b1.bids.map Prod.fst) (b.bids.map Prod.fst))
    (ha : List.Sublist (b1.asks.map Prod.fst) (b.asks.map Prod.fst))
    (hPb : List.Pairwise (fun x y : ℚ × List Order => y.1 < x.1) b.bids)
    (hPa : List.Pairwise (fun x y : ℚ × List Order => x.1 < y.1) b.asks)
    (hnc : b.notCrossed) : b1.notCrossed := by
  intro pb pa hpb hpa
  unfold OrderBook.best_bid at hpb
  unfold OrderBook.best_ask at hpa
  cases hb1 : b1.bids with
  | nil => rw [hb1] at hpb; cases hpb
  | cons lb rb =>
    cases ha1 : b1.asks with
    | nil => rw [ha1] at hpa; cases hpa
    | cons la ra =>
      rw [hb1] at hpb
      rw [ha1] at hpa
      injection hpb with hpb
      injection hpa with hpa
      have hmb : pb ∈ b.bids.map Prod.fst := by
        apply hb.mem
        rw [hb1, List.map_cons, hpb]
        exact List.mem_cons_self _ _
      have hma : pa ∈ b.asks.map Prod.fst := by
        apply ha.mem
        rw [ha1, List.map_cons, hpa]
        exact List.mem_cons_self _ _
      cases hbb : b.bids with
      | nil => rw [hbb] at hmb; cases hmb
      | cons hdb tlb =>
        cases hba : b.asks with
        | nil => rw [hba] at hma; cases hma
        | cons hda tla =>
          have hkb : List.Pairwise (fun a c : ℚ => c < a) (b.bids.map Prod.fst) :=
            List.pairwise_map.mpr hPb
          have hka : List.Pairwise (fun a c : ℚ => a < c) (b.asks.map Prod.fst) :=
            List.pairwise_map.mpr hPa
          rw [hbb, List.map_cons] at hkb hmb
          rw [hba, List.map_cons] at hka hma
          have h1 : pb ≤ hdb.1 := le_head_of_pairwise_gt hdb.1 (tlb.map Prod.fst) pb hkb hmb
          have h2 : hda.1 ≤ pa := head_le_of_pairwise_lt hda.1 (tla.map Prod.fst) pa hka hma
          have h3 : hdb.1 < hda.1 := by
            apply hnc
            · unfold OrderBook.best_bid
              rw [hbb]
            · unfold OrderBook.best_ask
              rw [hba]
          calc pb ≤ hdb.1 := h1
            _ < hda.1 := h3
            _ ≤ pa := h2

/-- Every level of an inserted side carries either the inserted key or
a key already present. -/
theorem mem_insertLevel_key (before : ℚ → ℚ → Bool) (p : ℚ) (o : Order)
    (s : List (ℚ × List Order)) :
    ∀ l ∈ insertLevel before p o s, l.1 = p ∨ ∃ l0 ∈ s, l.1 = l0.1 := by
  induction s with
  | nil =>
    intro l hl
    rw [insertLevel, List.mem_singleton] at hl
    exact Or.inl (by rw [hl])
  | cons hd rest ih =>
    obtain ⟨q, orders⟩ := hd
    intro l hl
    rw [insertLevel] at hl
    by_cases h1 : p = q
    · rw [if_pos h1] at hl
      rcases List.mem_cons.mp hl with h | h
      · exact Or.inr ⟨(q, orders), List.mem_cons_self _ _, by rw [h]⟩
      · exact Or.inr ⟨l, List.mem_cons_of_mem _ h, rfl⟩
    · rw [if_neg h1] at hl
      by_cases h2 : before p q = true
      · rw [if_pos h2] at hl
        rcases List.mem_cons.mp hl with h | h
        · exact Or.inl (by rw [h])
        · exact Or.inr ⟨l, h, rfl⟩
      · rw [if_neg h2] at hl
        rcases List.mem_cons.mp hl with h | h
        · exact Or.inr ⟨(q, orders), List.mem_cons_self _ _, by rw [h]⟩
        · rcases ih l h with h3 | ⟨l0, hl0, h3⟩
          · exact Or.inl h3
          · exact Or.inr ⟨l0, List.mem_cons_of_mem _ hl0, h3⟩

/-- `insertLevel` preserves strict sortedness of the level keys, for
any order of keys compatible with the `before` comparator. -/
theorem insertLevel_pairwise (R : ℚ → ℚ → Prop) (before : ℚ → ℚ → Bool)
    (htr : ∀ a c d : ℚ, R a c → R c d → R a d)
    (hbt : ∀ a c : ℚ, before a c = true → R a c)
    (hbf : ∀ a c : ℚ, ¬ a = c → ¬ before a c = true → R c a)
    (p : ℚ) (o : Order) (s : List (ℚ × List Order))
    (hs : List.Pairwise (fun x y : ℚ × List Order => R x.1 y.1) s) :
    List.Pairwise (fun x y : ℚ × List Order => R x.1 y.1)
      (insertLevel before p o s) := by
  induction s with
  | nil =>
    rw [insertLevel]
    exact List.pairwise_singleton _ _
  | cons hd rest ih =>
    obtain ⟨q, orders⟩ := hd
    rw [List.pairwise_cons] at hs
    obtain ⟨hhd, hrest⟩ := hs
    rw [insertLevel]
    by_cases h1 : p = q
    · rw [if_pos h1]
      exact List.pairwise_cons.mpr ⟨hhd, hrest⟩
    · rw [if_neg h1]
      by_cases h2 : before p q = true
      · rw [if_pos h2]
        refine List.pairwise_cons.mpr ⟨?_, List.pairwise_cons.mpr ⟨hhd, hrest⟩⟩
        intro l hl
        rcases List.mem_cons.mp hl with h | h
        · rw [h]
          exact hbt p q h2
        · exact htr p q l.1 (hbt p q h2) (hhd l h)
      · rw [if_neg h2]
        refine List.pairwise_cons.mpr ⟨?_, ih hrest⟩
        intro l hl
        rcases mem_insertLevel_key before p o rest l hl with h | ⟨l0, hl0, h⟩
        · rw [h]
          exact hbf p q h1 h2
        · rw [h]
          exact hhd l0 hl0

/-- The head key after an insertion is the inserted key or the old
head key. -/
theorem insertLevel_head_key (before : ℚ → ℚ → Bool) (p : ℚ) (o : Order)
    (s : List (ℚ × List Order)) (l : ℚ × List Order) (ls : List (ℚ × List Order))
    (h : insertLevel before p o s = l :: ls) :
    l.1 = p ∨ ∃ q qs rest, s = (q, qs) :: rest ∧ l.1 = q := by
  cases s with
  | nil =>
    rw [insertLevel] at h
    injection h with h1 _
    exact Or.inl (by rw [← h1])
  | cons hd rest =>
    obtain ⟨q, qs⟩ := hd
    rw [insertLevel] at h
    by_cases h1 : p = q
    · rw [if_pos h1] at h
      injection h with h2 _
      exact Or.inr ⟨q, qs, rest, rfl, by rw [← h2]⟩
    · rw [if_neg h1] at h
      by_cases h2 : before p q = true
      · rw [if_pos h2] at h
        injection h with h3 _
        exact Or.inl (by rw [← h3])
      · rw [if_neg h2] at h
        injection h with h3 _
        exact Or.inr ⟨q, qs, rest, rfl, by rw [← h3]⟩

/-- Inserting a well-formed order keeps every level well-formed. -/
theorem insertLevel_levelWF (sideTy : OrderType) (before : ℚ → ℚ → Bool)
    (o : Order) (s : List (ℚ × List Order))
    (ho2 : o.side = sideTy) (ho3 : o.status = OrderStatus.OPEN)
    (ho4 : 0 < o.quantity)
    (hs : ∀ l ∈ s, levelWF sideTy l) :
    ∀ l ∈ insertLevel before o.price o s, levelWF sideTy l := by
  induction s with
  | nil =>
    intro l hl
    rw [insertLevel, List.mem_singleton] at hl
    rw [hl]
    refine ⟨List.cons_ne_nil _ _, fun m hm => ?_⟩
    rw [List.mem_singleton] at hm
    rw [hm]
    exact ⟨rfl, ho2, ho3, ho4⟩
  | cons hd rest ih =>
    obtain ⟨q, qs⟩ := hd
    intro l hl
    rw [insertLevel] at hl
    by_cases h1 : o.price = q
    · rw [if_pos h1] at hl
      rcases List.mem_cons.mp hl with h | h
      · rw [h]
        refine ⟨by simp, fun m hm => ?_⟩
        rcases List.mem_append.mp hm with hm | hm
        · exact (hs (q, qs) (List.mem_cons_self _ _)).2 m hm
        · rw [List.mem_singleton] at hm
          rw [hm]
          exact ⟨h1, ho2, ho3, ho4⟩
      · exact hs l (List.mem_cons_of_mem _ h)
    · rw [if_neg h1] at hl
      by_cases h2 : before o.price q = true
      · rw [if_pos h2] at hl
        rcases List.mem_cons.mp hl with h | h
        · rw [h]
          refine ⟨List.cons_ne_nil _ _, fun m hm => ?_⟩
          rw [List.mem_singleton] at hm
          rw [hm]
          exact ⟨rfl, ho2, ho3, ho4⟩
        · exact hs l h
      · rw [if_neg h2] at hl
        rcases List.mem_cons.mp hl with h | h
        · rw [h]
          exact hs (q, qs) (List.mem_cons_self _ _)
        · exact ih (fun l' hl' => hs l' (List.mem_cons_of_mem _ hl')) l h

/-- An order surviving `removeFromLevel` was in the original queue. -/
theorem removeFromLevel_subset (oid : Nat) (orders orders1 : List Order)
    (h : removeFromLevel oid orders = some orders1) :
    ∀ x ∈ orders1, x ∈ orders := by
  induction orders generalizing orders1 with
  | nil => rw [removeFromLevel] at h; cases h
  | cons o rest ih =>
    rw [removeFromLevel] at h
    by_cases h1 : o.id = oid
    · rw [if_pos h1] at h
      injection h with h
      intro x hx
      rw [← h] at hx
      exact List.mem_cons_of_mem _ hx
    · rw [if_neg h1] at h
      cases hr : removeFromLevel oid rest with
      | none => rw [hr] at h; cases h
      | some r1 =>
        rw [hr] at h
        injection h with h
        intro x hx
        rw [← h] at hx
        rcases List.mem_cons.mp hx with h2 | h2
        · rw [h2]
          exact List.mem_cons_self _ _
        · exact List.mem_cons_of_mem _ (ih r1 hr x h2)

/-- The level keys surviving a cancel are a sublist of the original
keys. -/
theorem cancelAtPrice_keys_sublist (oid : Nat) (p : ℚ)
    (s : List (ℚ × List Order)) :
    List.Sublist ((cancelAtPrice oid p s).1.map Prod.fst) (s.map Prod.fst) := by
  induction s with
  | nil => rw [cancelAtPrice]
  | cons hd rest ih =>
    obtain ⟨q, qs⟩ := hd
    rw [cancelAtPrice]
    by_cases h1 : q = p
    · rw [if_pos h1]
      cases hr : removeFromLevel oid qs with
      | none => exact List.Sublist.refl _
      | some r1 =>
        cases r1 with
        | nil => exact List.sublist_cons_self _ _
        | cons x xs => exact List.Sublist.refl _
    · rw [if_neg h1]
      exact List.Sublist.cons₂ q ih

/-- Every level surviving a cancel is non-empty when the input levels
are, keeps its key, and holds a subset of the original orders at that
key. -/
theorem cancelAtPrice_mem (oid : Nat) (p : ℚ) (s : List (ℚ × List Order))
    (hne : ∀ l ∈ s, l.2 ≠ []) :
    ∀ l1 ∈ (cancelAtPrice oid p s).1, l1.2 ≠ [] ∧
      ∃ l ∈ s, l1.1 = l.1 ∧ ∀ x ∈ l1.2, x ∈ l.2 := by
  induction s with
  | nil =>
    rw [cancelAtPrice]
    intro l1 hl1
    exact absurd hl1 (List.not_mem_nil l1)
  | cons hd rest ih =>
    obtain ⟨q, qs⟩ := hd
    rw [cancelAtPrice]
    by_cases h1 : q = p
    · rw [if_pos h1]
      cases hr : removeFromLevel oid qs with
      | none =>
        intro l1 hl1
        rcases List.mem_cons.mp hl1 with h | h
        · rw [h]
          exact ⟨hne (q, qs) (List.mem_cons_self _ _),
            ⟨(q, qs), List.mem_cons_self _ _, rfl, fun x hx => hx⟩⟩
        · exact ⟨(hne l1 (List.mem_cons_of_mem _ h)),
            ⟨l1, List.mem_cons_of_mem _ h, rfl, fun x hx => hx⟩⟩
      | some r1 =>
        cases r1 with
        | nil =>
          intro l1 hl1
          exact ⟨hne l1 (List.mem_cons_of_mem _ hl1),
            ⟨l1, List.mem_cons_of_mem _ hl1, rfl, fun x hx => hx⟩⟩
        | cons x xs =>
          intro l1 hl1
          rcases List.mem_cons.mp hl1 with h | h
          · rw [h]
            exact ⟨List.cons_ne_nil _ _,
              ⟨(q, qs), List.mem_cons_self _ _, rfl,
               removeFromLevel_subset oid qs (x :: xs) hr⟩⟩
          · exact ⟨hne l1 (List.mem_cons_of_mem _ h),
              ⟨l1, List.mem_cons_of_mem _ h, rfl, fun y hy => hy⟩⟩
    · rw [if_neg h1]
      intro l1 hl1
      rcases List.mem_cons.mp hl1 with h | h
      · rw [h]
        exact ⟨hne (q, qs) (List.mem_cons_self _ _),
          ⟨(q, qs), List.mem_cons_self _ _, rfl, fun x hx => hx⟩⟩
      · have := ih (fun l hl => hne l (List.mem_cons_of_mem _ hl)) l1 h
        rcases this with ⟨hne1, l, hl, he, hsub⟩
        exact ⟨hne1, ⟨l, List.mem_cons_of_mem _ hl, he, hsub⟩⟩


/-- The match-then-rest phase of `add` preserves well-formedness and
leaves the book uncrossed: fills consume the crossing levels of the
opposite side, and a still-open incoming order only rests when the
surviving best opposite level no longer crosses it. -/
theorem matchRest_inv (b : OrderBook) (o : Order) (hWF : b.WF) (hnc : b.notCrossed)
    (hq : 0 < o.quantity) :
    (if (b.matchIncoming o).2.1.is_open then
        (b.matchIncoming o).1.restOrder (b.matchIncoming o).2.1
      else (b.matchIncoming o).1).WF ∧
    (if (b.matchIncoming o).2.1.is_open then
        (b.matchIncoming o).1.restOrder (b.matchIncoming o).2.1
      else (b.matchIncoming o).1).notCrossed := by
  obtain ⟨hPb, hPa, hLb, hLa⟩ := hWF
  by_cases hside : o.side = OrderType.SELL
  · have hb1 : (b.matchIncoming o).1.bids =
        (matchLoop (sideSize b.bids + 1) o b.bids).book := by
      unfold OrderBook.matchIncoming
      simp [hside]
    have ha1 : (b.matchIncoming o).1.asks = b.asks := by
      unfold OrderBook.matchIncoming
      simp [hside]
    have hinc : (b.matchIncoming o).2.1 =
        (matchLoop (sideSize b.bids + 1) o b.bids).incoming := by
      unfold OrderBook.matchIncoming
      simp [hside]
    have hWFb : ∀ l ∈ b.bids, l.2 ≠ [] ∧ ∀ m ∈ l.2, m.price = l.1 ∧
        ¬ m.side = o.side ∧ m.status = OrderStatus.OPEN ∧ 0 < m.quantity := by
      intro l hl
      obtain ⟨h1, h2⟩ := hLb l hl
      refine ⟨h1, fun m hm => ?_⟩
      obtain ⟨e1, e2, e3, e4⟩ := h2 m hm
      refine ⟨e1, ?_, e3, e4⟩
      rw [e2, hside]
      intro hcon
      cases hcon
    obtain ⟨s1, s2, s3, s4, s5, s6, s7, s8, s9, -⟩ :=
      matchLoop_spec (sideSize b.bids + 1) b.bids o hWFb (fun _ => hq)
        (le_of_lt hq) (Nat.lt_succ_self _)
    have hkb0 : List.Pairwise (fun a c : ℚ => c < a) (b.bids.map Prod.fst) :=
      List.pairwise_map.mpr hPb
    have hkb1 : List.Pairwise (fun a c : ℚ => c < a)
        ((matchLoop (sideSize b.bids + 1) o b.bids).book.map Prod.fst) :=
      List.Pairwise.sublist (List.IsSuffix.sublist s7) hkb0
    have hPb' : List.Pairwise (fun x y : ℚ × List Order => y.1 < x.1)
        (matchLoop (sideSize b.bids + 1) o b.bids).book :=
      List.pairwise_map.mp hkb1
    have hLb' : ∀ l ∈ (matchLoop (sideSize b.bids + 1) o b.bids).book,
        levelWF OrderType.BUY l := by
      intro l hl
      obtain ⟨h1, h2⟩ := s8 l hl
      refine ⟨h1, fun m hm => ?_⟩
      obtain ⟨e1, e2, e3, e4⟩ := h2 m hm
      refine ⟨e1, ?_, e3, e4⟩
      apply OrderType.eq_buy_of_ne_sell
      rw [← hside]
      exact e2
    by_cases hopen : (b.matchIncoming o).2.1.is_open = true
    · rw [if_pos hopen]
      have hxside : (b.matchIncoming o).2.1.side = OrderType.SELL := by
        rw [hinc, s1]
        exact hside
      have hxbuy : ¬ (b.matchIncoming o).2.1.side = OrderType.BUY := by
        rw [hxside]
        intro h
        cases h
      have hxopen :
          (matchLoop (sideSize b.bids + 1) o b.bids).incoming.is_open = true := by
        rw [← hinc]
        exact hopen
      have hxstat : (b.matchIncoming o).2.1.status = OrderStatus.OPEN := by
        have h := hopen
        unfold Order.is_open at h
        exact of_decide_eq_true h
      have hxq : 0 < (b.matchIncoming o).2.1.quantity := by
        rw [hinc]
        exact s5 hxopen
      have hrb : ((b.matchIncoming o).1.restOrder (b.matchIncoming o).2.1).bids =
          (matchLoop (sideSize b.bids + 1) o b.bids).book := by
        unfold OrderBook.restOrder
        rw [if_neg hxbuy]
        simp only []
        exact hb1
      have hra : ((b.matchIncoming o).1.restOrder (b.matchIncoming o).2.1).asks =
          insertLevel (fun a c => a < c) (b.matchIncoming o).2.1.price
            (b.matchIncoming o).2.1 b.asks := by
        unfold OrderBook.restOrder
        rw [if_neg hxbuy]
        simp only []
        rw [ha1]
      have hPa' : List.Pairwise (fun x y : ℚ × List Order => x.1 < y.1)
          (insertLevel (fun a c => a < c) (b.matchIncoming o).2.1.price
            (b.matchIncoming o).2.1 b.asks) := by
        apply insertLevel_pairwise (fun a c => a < c) (fun a c => a < c)
          (fun a c d h1 h2 => lt_trans h1 h2)
          (fun a c h => of_decide_eq_true h)
          (fun a c h1 h2 => ?_) _ _ _ hPa
        have h3 : ¬ a < c := fun h => h2 (decide_eq_true h)
        exact lt_of_le_of_ne (not_lt.mp h3) (fun h => h1 h.symm)
      have hLa' : ∀ l ∈ insertLevel (fun a c => a < c) (b.matchIncoming o).2.1.price
          (b.matchIncoming o).2.1 b.asks, levelWF OrderType.SELL l :=
        insertLevel_levelWF OrderType.SELL _ _ _ hxside hxstat hxq hLa
      constructor
      · exact ⟨by rw [hrb]; exact hPb', by rw [hra]; exact hPa',
          by rw [hrb]; exact hLb', by rw [hra]; exact hLa'⟩
      · intro pb pa hpb hpa
        unfold OrderBook.best_bid at hpb
        unfold OrderBook.best_ask at hpa
        rw [hrb] at hpb
        rw [hra] at hpa
        cases hB : (matchLoop (sideSize b.bids + 1) o b.bids).book with
        | nil => rw [hB] at hpb; cases hpb
        | cons lb rb =>
          rw [hB] at hpb
          injection hpb with hpb
          cases hA : insertLevel (fun a c => a < c) (b.matchIncoming o).2.1.price
              (b.matchIncoming o).2.1 b.asks with
          | nil => rw [hA] at hpa; cases hpa
          | cons la ra =>
            rw [hA] at hpa
            injection hpa with hpa
            rcases insertLevel_head_key _ _ _ _ _ _ hA with hk | ⟨qa, qsa, resta, hbask, hk⟩
            · rcases s9 hxopen with h0 | ⟨p, q, rest2, hbook, hbreak⟩
              · rw [h0] at hB
                cases hB
              · rw [hbook] at hB
                injection hB with hB1 hB2
                have hppb : p = pb := by
                  rw [← hB1] at hpb
                  exact hpb
                have hsx : (matchLoop (sideSize b.bids + 1) o b.bids).incoming.side =
                    OrderType.SELL := by
                  rw [s1]
                  exact hside
                simp only [priceBreak, hsx] at hbreak
                simp only [decide_eq_true_eq, Bool.and_eq_true, Bool.or_eq_true,
                  decide_eq_true_eq] at hbreak
                have hlt : p < (matchLoop (sideSize b.bids + 1) o b.bids).incoming.price := by
                  rcases hbreak with ⟨h4, -⟩ | ⟨-, h4⟩
                  · cases h4
                  · exact h4
                rw [← hppb, ← hpa, hk, hinc]
                exact hlt
            · have hpbm : pb ∈ ((matchLoop (sideSize b.bids + 1) o b.bids).book.map
                  Prod.fst) := by
                rw [hB, List.map_cons, hpb]
                exact List.mem_cons_self _ _
              have hpbm2 : pb ∈ b.bids.map Prod.fst :=
                (List.IsSuffix.sublist s7).mem hpbm
              cases hbb : b.bids with
              | nil =>
                rw [hbb] at hpbm2
                cases hpbm2
              | cons hdb tlb =>
                have hkb : List.Pairwise (fun a c : ℚ => c < a) (b.bids.map Prod.fst) :=
                  List.pairwise_map.mpr hPb
                rw [hbb, List.map_cons] at hkb hpbm2
                have h1 : pb ≤ hdb.1 :=
                  le_head_of_pairwise_gt hdb.1 (tlb.map Prod.fst) pb hkb hpbm2
                have h3 : hdb.1 < qa := by
                  apply hnc
                  · unfold OrderBook.best_bid
                    rw [hbb]
                  · unfold OrderBook.best_ask
                    rw [hbask]
                rw [← hpa, hk]
                exact lt_of_le_of_lt h1 h3
    · rw [if_neg hopen]
      constructor
      · exact ⟨by rw [hb1]; exact hPb', by rw [ha1]; exact hPa,
          by rw [hb1]; exact hLb', by rw [ha1]; exact hLa⟩
      · refine notCrossed_of_keys_sublist b _ ?_ ?_ hPb hPa hnc
        · rw [hb1]
          exact List.IsSuffix.sublist s7
        · rw [ha1]
  · have hbuy : o.side = OrderType.BUY := OrderType.eq_buy_of_ne_sell o.side hside
    have hb1 : (b.matchIncoming o).1.asks =
        (matchLoop (sideSize b.asks + 1) o b.asks).book := by
      unfold OrderBook.matchIncoming
      simp [hbuy]
    have ha1 : (b.matchIncoming o).1.bids = b.bids := by
      unfold OrderBook.matchIncoming
      simp [hbuy]
    have hinc : (b.matchIncoming o).2.1 =
        (matchLoop (sideSize b.asks + 1) o b.asks).incoming := by
      unfold OrderBook.matchIncoming
      simp [hbuy]
    have hWFa : ∀ l ∈ b.asks, l.2 ≠ [] ∧ ∀ m ∈ l.2, m.price = l.1 ∧
        ¬ m.side = o.side ∧ m.status = OrderStatus.OPEN ∧ 0 < m.quantity := by
      intro l hl
      obtain ⟨h1, h2⟩ := hLa l hl
      refine ⟨h1, fun m hm => ?_⟩
      obtain ⟨e1, e2, e3, e4⟩ := h2 m hm
      refine ⟨e1, ?_, e3, e4⟩
      rw [e2, hbuy]
      intro hcon
      cases hcon
    obtain ⟨s1, s2, s3, s4, s5, s6, s7, s8, s9, -⟩ :=
      matchLoop_spec (sideSize b.asks + 1) b.asks o hWFa (fun _ => hq)
        (le_of_lt hq) (Nat.lt_succ_self _)
    have hka0 : List.Pairwise (fun a c : ℚ => a < c) (b.asks.map Prod.fst) :=
      List.pairwise_map.mpr hPa
    have hka1 : List.Pairwise (fun a c : ℚ => a < c)
        ((matchLoop (sideSize b.asks + 1) o b.asks).book.map Prod.fst) :=
      List.Pairwise.sublist (List.IsSuffix.sublist s7) hka0
    have hPa' : List.Pairwise (fun x y : ℚ × List Order => x.1 < y.1)
        (matchLoop (sideSize b.asks + 1) o b.asks).book :=
      List.pairwise_map.mp hka1
    have hLa' : ∀ l ∈ (matchLoop (sideSize b.asks + 1) o b.asks).book,
        levelWF OrderType.SELL l := by
      intro l hl
      obtain ⟨h1, h2⟩ := s8 l hl
      refine ⟨h1, fun m hm => ?_⟩
      obtain ⟨e1, e2, e3, e4⟩ := h2 m hm
      refine ⟨e1, ?_, e3, e4⟩
      apply OrderType.eq_sell_of_ne_buy
      rw [← hbuy]
      exact e2
    by_cases hopen : (b.matchIncoming o).2.1.is_open = true
    · rw [if_pos hopen]
      have hxside : (b.matchIncoming o).2.1.side = OrderType.BUY := by
        rw [hinc, s1]
        exact hbuy
      have hxopen :
          (matchLoop (sideSize b.asks + 1) o b.asks).incoming.is_open = true := by
        rw [← hinc]
        exact hopen
      have hxstat : (b.matchIncoming o).2.1.status = OrderStatus.OPEN := by
        have h := hopen
        unfold Order.is_open at h
        exact of_decide_eq_true h
      have hxq : 0 < (b.matchIncoming o).2.1.quantity := by
        rw [hinc]
        exact s5 hxopen
      have hrb : ((b.matchIncoming o).1.restOrder (b.matchIncoming o).2.1).bids =
          insertLevel (fun a c => c < a) (b.matchIncoming o).2.1.price
            (b.matchIncoming o).2.1 b.bids := by
        unfold OrderBook.restOrder
        rw [if_pos hxside]
        simp only []
        rw [ha1]
      have hra : ((b.matchIncoming o).1.restOrder (b.matchIncoming o).2.1).asks =
          (matchLoop (sideSize b.asks + 1) o b.asks).book := by
        unfold OrderBook.restOrder
        rw [if_pos hxside]
        simp only []
        exact hb1
      have hPb' : List.Pairwise (fun x y : ℚ × List Order => y.1 < x.1)
          (insertLevel (fun a c => c < a) (b.matchIncoming o).2.1.price
            (b.matchIncoming o).2.1 b.bids) := by
        apply insertLevel_pairwise (fun a c => c < a) (fun a c => c < a)
          (fun a c d h1 h2 => lt_trans h2 h1)
          (fun a c h => of_decide_eq_true h)
          (fun a c h1 h2 => ?_) _ _ _ hPb
        have h3 : ¬ c < a := fun h => h2 (decide_eq_true h)
        exact lt_of_le_of_ne (not_lt.mp h3) h1
      have hLb' : ∀ l ∈ insertLevel (fun a c => c < a) (b.matchIncoming o).2.1.price
          (b.matchIncoming o).2.1 b.bids, levelWF OrderType.BUY l :=
        insertLevel_levelWF OrderType.BUY _ _ _ hxside hxstat hxq hLb
      constructor
      · exact ⟨by rw [hrb]; exact hPb', by rw [hra]; exact hPa',
          by rw [hrb]; exact hLb', by rw [hra]; exact hLa'⟩
      · intro pb pa hpb hpa
        unfold OrderBook.best_bid at hpb
        unfold OrderBook.best_ask at hpa
        rw [hrb] at hpb
        rw [hra] at hpa
        cases hA : (matchLoop (sideSize b.asks + 1) o b.asks).book with
        | nil => rw [hA] at hpa; cases hpa
        | cons la ra =>
          rw [hA] at hpa
          injection hpa with hpa
          cases hB : insertLevel (fun a c => c < a) (b.matchIncoming o).2.1.price
              (b.matchIncoming o).2.1 b.bids with
          | nil => rw [hB] at hpb; cases hpb
          | cons lb rb =>
            rw [hB] at hpb
            injection hpb with hpb
            rcases insertLevel_head_key _ _ _ _ _ _ hB with hk | ⟨qb, qsb, restb, hbbid, hk⟩
            · rcases s9 hxopen with h0 | ⟨p, q, rest2, hbook, hbreak⟩
              · rw [h0] at hA
                cases hA
              · rw [hbook] at hA
                injection hA with hA1 hA2
                have hppa : p = pa := by
                  rw [← hA1] at hpa
                  exact hpa
                have hsx : (matchLoop (sideSize b.asks + 1) o b.asks).incoming.side =
                    OrderType.BUY := by
                  rw [s1]
                  exact hbuy
                simp only [priceBreak, hsx] at hbreak
                simp only [decide_eq_true_eq, Bool.and_eq_true, Bool.or_eq_true,
                  decide_eq_true_eq] at hbreak
                have hlt : (matchLoop (sideSize b.asks + 1) o b.asks).incoming.price
                    < p := by
                  rcases hbreak with ⟨-, h4⟩ | ⟨h4, -⟩
                  · exact h4
                  · cases h4
                rw [← hppa, ← hpb, hk, hinc]
                exact hlt
            · have hpam : pa ∈ ((matchLoop (sideSize b.asks + 1) o b.asks).book.map
                  Prod.fst) := by
                rw [hA, List.map_cons, hpa]
                exact List.mem_cons_self _ _
              have hpam2 : pa ∈ b.asks.map Prod.fst :=
                (List.IsSuffix.sublist s7).mem hpam
              cases hba : b.asks with
              | nil =>
                rw [hba] at hpam2
                cases hpam2
              | cons hda tla =>
                have hka : List.Pairwise (fun a c : ℚ => a < c) (b.asks.map Prod.fst) :=
                  List.pairwise_map.mpr hPa
                rw [hba, List.map_cons] at hka hpam2
                have h1 : hda.1 ≤ pa :=
                  head_le_of_pairwise_lt hda.1 (tla.map Prod.fst) pa hka hpam2
                have h3 : qb < hda.1 := by
                  apply hnc
                  · unfold OrderBook.best_bid
                    rw [hbbid]
                  · unfold OrderBook.best_ask
                    rw [hba]
                rw [← hpb, hk]
                exact lt_of_lt_of_le h3 h1
    · rw [if_neg hopen]
      constructor
      · exact ⟨by rw [ha1]; exact hPb, by rw [hb1]; exact hPa',
          by rw [ha1]; exact hLb, by rw [hb1]; exact hLa'⟩
      · refine notCrossed_of_keys_sublist b _ ?_ ?_ hPb hPa hnc
        · rw [ha1]
        · rw [hb1]
          exact List.IsSuffix.sublist s7

/-- Both sides of the book after depth enforcement are filters of the
original sides. -/
theorem enforce_sides (b : OrderBook) :
    ∃ pb pa, (b.enforceMarketDepth).1.bids = b.bids.filter pb ∧
      (b.enforceMarketDepth).1.asks = b.asks.filter pa := by
  unfold OrderBook.enforceMarketDepth
  cases ht : b.tick_size with
  | none =>
    refine ⟨fun _ => true, fun _ => true, ?_, ?_⟩ <;> simp
  | some t =>
    cases hn : b.market_depth with
    | none =>
      refine ⟨fun _ => true, fun _ => true, ?_, ?_⟩ <;> simp
    | some n =>
      by_cases hg : b.bids = [] ∧ b.asks = []
      · simp only []
        rw [if_pos hg]
        refine ⟨fun _ => true, fun _ => true, ?_, ?_⟩ <;> simp
      · simp only []
        rw [if_neg hg]
        exact ⟨_, _, rfl, rfl⟩

/-- Depth enforcement preserves well-formedness and never crosses the
book. -/
theorem enforce_inv (b : OrderBook) (hWF : b.WF) (hnc : b.notCrossed) :
    (b.enforceMarketDepth).1.WF ∧ (b.enforceMarketDepth).1.notCrossed := by
  obtain ⟨hPb, hPa, hLb, hLa⟩ := hWF
  obtain ⟨pb, pa, hbs, has⟩ := enforce_sides b
  constructor
  · refine ⟨?_, ?_, ?_, ?_⟩
    · rw [hbs]
      exact List.Pairwise.sublist (List.filter_sublist _) hPb
    · rw [has]
      exact List.Pairwise.sublist (List.filter_sublist _) hPa
    · rw [hbs]
      intro l hl
      exact hLb l (List.mem_of_mem_filter hl)
    · rw [has]
      intro l hl
      exact hLa l (List.mem_of_mem_filter hl)
  · refine notCrossed_of_keys_sublist b _ ?_ ?_ hPb hPa hnc
    · rw [hbs]
      exact List.Sublist.map _ (List.filter_sublist _)
    · rw [has]
      exact List.Sublist.map _ (List.filter_sublist _)

/-- `cancel` preserves well-formedness and never crosses the book. -/
theorem cancel_inv (b : OrderBook) (oid : Nat) (hWF : b.WF) (hnc : b.notCrossed) :
    (b.cancelOrder oid).1.WF ∧ (b.cancelOrder oid).1.notCrossed := by
  obtain ⟨hPb, hPa, hLb, hLa⟩ := hWF
  cases hl : lookupKey oid b.open_orders with
  | none =>
    have he : b.cancelOrder oid = (b, none, none) := cancelOrder_of_absent b oid hl
    rw [he]
    exact ⟨⟨hPb, hPa, hLb, hLa⟩, hnc⟩
  | some o =>
    by_cases hs : o.side = OrderType.BUY
    · have hb1 : (b.cancelOrder oid).1.bids = (cancelAtPrice o.id o.price b.bids).1 := by
        unfold OrderBook.cancelOrder
        rw [hl]
        simp [hs]
      have ha1 : (b.cancelOrder oid).1.asks = b.asks := by
        unfold OrderBook.cancelOrder
        rw [hl]
        simp [hs]
      have hmem := cancelAtPrice_mem o.id o.price b.bids (fun l hl2 => (hLb l hl2).1)
      have hkb0 : List.Pairwise (fun a c : ℚ => c < a) (b.bids.map Prod.fst) :=
        List.pairwise_map.mpr hPb
      have hkb1 : List.Pairwise (fun a c : ℚ => c < a)
          ((cancelAtPrice o.id o.price b.bids).1.map Prod.fst) :=
        List.Pairwise.sublist (cancelAtPrice_keys_sublist o.id o.price b.bids) hkb0
      refine ⟨⟨?_, ?_, ?_, ?_⟩, ?_⟩
      · rw [hb1]
        exact List.pairwise_map.mp hkb1
      · rw [ha1]
        exact hPa
      · rw [hb1]
        intro l1 hl1
        obtain ⟨hne1, l, hlmem, hkey, hsub⟩ := hmem l1 hl1
        refine ⟨hne1, fun m hm => ?_⟩
        obtain ⟨e1, e2, e3, e4⟩ := (hLb l hlmem).2 m (hsub m hm)
        exact ⟨by rw [hkey]; exact e1, e2, e3, e4⟩
      · rw [ha1]
        exact hLa
      · refine notCrossed_of_keys_sublist b _ ?_ ?_ hPb hPa hnc
        · rw [hb1]
          exact cancelAtPrice_keys_sublist o.id o.price b.bids
        · rw [ha1]
    · have hb1 : (b.cancelOrder oid).1.bids = b.bids := by
        unfold OrderBook.cancelOrder
        rw [hl]
        simp [hs]
      have ha1 : (b.cancelOrder oid).1.asks = (cancelAtPrice o.id o.price b.asks).1 := by
        unfold OrderBook.cancelOrder
        rw [hl]
        simp [hs]
      have hmem := cancelAtPrice_mem o.id o.price b.asks (fun l hl2 => (hLa l hl2).1)
      have hka0 : List.Pairwise (fun a c : ℚ => a < c) (b.asks.map Prod.fst) :=
        List.pairwise_map.mpr hPa
      have hka1 : List.Pairwise (fun a c : ℚ => a < c)
          ((cancelAtPrice o.id o.price b.asks).1.map Prod.fst) :=
        List.Pairwise.sublist (cancelAtPrice_keys_sublist o.id o.price b.asks) hka0
      refine ⟨⟨?_, ?_, ?_, ?_⟩, ?_⟩
      · rw [hb1]
        exact hPb
      · rw [ha1]
        exact List.pairwise_map.mp hka1
      · rw [hb1]
        exact hLb
      · rw [ha1]
        intro l1 hl1
        obtain ⟨hne1, l, hlmem, hkey, hsub⟩ := hmem l1 hl1
        refine ⟨hne1, fun m hm => ?_⟩
        obtain ⟨e1, e2, e3, e4⟩ := (hLa l hlmem).2 m (hsub m hm)
        exact ⟨by rw [hkey]; exact e1, e2, e3, e4⟩
      · refine notCrossed_of_keys_sublist b _ ?_ ?_ hPb hPa hnc
        · rw [hb1]
        · rw [ha1]
          exact cancelAtPrice_keys_sublist o.id o.price b.asks

/-- Every reachable book is well-formed and uncrossed. -/
theorem reachable_inv (b : OrderBook) (hb : Reachable b) : b.WF ∧ b.notCrossed := by
  induction hb with
  | init tick_size market_depth =>
    refine ⟨⟨List.Pairwise.nil, List.Pairwise.nil, ?_, ?_⟩, ?_⟩
    · intro l hl
      exact absurd hl (List.not_mem_nil l)
    · intro l hl
      exact absurd hl (List.not_mem_nil l)
    · intro pb pa hpb hpa
      exact Option.noConfusion hpb
  | add b side price quantity id ts hp hq hbR ih =>
    obtain ⟨hWF, hnc⟩ := ih
    by_cases hv : b.isValidPrice (Order.make side price quantity id ts).price = true
    · have hadd : (b.add (Order.make side price quantity id ts)).1 =
          ((if (b.matchIncoming (Order.make side price quantity id ts)).2.1.is_open then
              (b.matchIncoming (Order.make side price quantity id ts)).1.restOrder
                (b.matchIncoming (Order.make side price quantity id ts)).2.1
            else
              (b.matchIncoming
                (Order.make side price quantity id ts)).1).enforceMarketDepth).1 := by
        unfold OrderBook.add
        rw [if_neg (not_not_intro hv)]
      rw [hadd]
      have h1 := matchRest_inv b (Order.make side price quantity id ts) hWF hnc hq
      exact enforce_inv _ h1.1 h1.2
    · have hadd : (b.add (Order.make side price quantity id ts)).1 = b := by
        unfold OrderBook.add
        rw [if_pos hv]
      rw [hadd]
      exact ⟨hWF, hnc⟩
  | cancel b oid hbR ih =>
    exact cancel_inv b oid ih.1 ih.2
  | clear b hbR ih =>
    refine ⟨⟨List.Pairwise.nil, List.Pairwise.nil, ?_, ?_⟩, ?_⟩
    · intro l hl
      exact absurd hl (List.not_mem_nil l)
    · intro l hl
      exact absurd hl (List.not_mem_nil l)
    · intro pb pa hpb hpa
      exact Option.noConfusion hpb

/-- C3: after any sequence of the public operations (`add` of a
constructor-valid order, `cancel`, `clear`) starting from a fresh book,
whenever both sides are non-empty the best bid price is strictly below
the best ask price: the book is never left crossed at rest. -/
theorem c3_never_crossed (b : OrderBook) (hr : Reachable b) (pb pa : ℚ)
    (hpb : b.best_bid = some pb) (hpa : b.best_ask = some pa) : pb < pa :=
  (reachable_inv b hr).2 pb pa hpb hpa

/-- Witness for `c3_never_crossed`: the book reached by adding `BUY@1
qty 1` and then `SELL@2 qty 1` to a fresh book with tick size 1 has
best bid 1, best ask 2, and 1 < 2. -/
theorem c3_never_crossed_witness :
    ((((OrderBook.init (some 1) none).add (Order.make OrderType.BUY 1 1 1 1)).1.add
        (Order.make OrderType.SELL 2 1 2 2)).1.best_bid = some 1) ∧
    ((((OrderBook.init (some 1) none).add (Order.make OrderType.BUY 1 1 1 1)).1.add
        (Order.make OrderType.SELL 2 1 2 2)).1.best_ask = some 2) ∧
    (1 : ℚ) < 2 := by
  have hr : Reachable ((((OrderBook.init (some 1) none).add
      (Order.make OrderType.BUY 1 1 1 1)).1.add (Order.make OrderType.SELL 2 1 2 2)).1) :=
    Reachable.add _ OrderType.SELL 2 1 2 2 (by norm_num) (by norm_num)
      (Reachable.add _ OrderType.BUY 1 1 1 1 (by norm_num) (by norm_num)
        (Reachable.init (some 1) none))
  have h1 : (((OrderBook.init (some 1) none).add (Order.make OrderType.BUY 1 1 1 1)).1.add
      (Order.make OrderType.SELL 2 1 2 2)).1.best_bid = some 1 := by
    norm_num +decide [OrderBook.init, OrderBook.add, OrderBook.isValidPrice, Order.make,
      OrderBook.matchIncoming, matchLoop, matchAtLevel, priceBreak, Order.is_open,
      Order.fill, Order.matches, OrderBook.restOrder, insertLevel, setKey, popKey,
      OrderBook.enforceMarketDepth, OrderBook.best_bid, Rat.den]
  have h2 : (((OrderBook.init (some 1) none).add (Order.make OrderType.BUY 1 1 1 1)).1.add
      (Order.make OrderType.SELL 2 1 2 2)).1.best_ask = some 2 := by
    norm_num +decide [OrderBook.init, OrderBook.add, OrderBook.isValidPrice, Order.make,
      OrderBook.matchIncoming, matchLoop, matchAtLevel, priceBreak, Order.is_open,
      Order.fill, Order.matches, OrderBook.restOrder, insertLevel, setKey, popKey,
      OrderBook.enforceMarketDepth, OrderBook.best_ask, Rat.den]
  exact ⟨h1, h2, c3_never_crossed _ hr 1 2 h1 h2⟩
